import Mathlib

/-!
Verification of the `random-toolbox` utility library.

The development shallowly embeds the Python sources under `src/` as Lean
functions over `List Char` (Python `str`) and `List Nat` (Python `bytes`,
each entry `< 256`).  Randomness (Python's `secrets` module) is made
explicit: every generator takes the drawn indices or bytes as a parameter.
Fallible operations (`raise ValueError` etc.) return `Except PyStr _`.

Library routines the sources call (`base64`, `urllib.parse`, `hashlib`,
`uuid`, UTF-8 codecs) are embedded from their documented CPython
behaviour.  Case and whitespace normalisation (`str.lower`, `str.strip`,
`str.split`) is modelled on the ASCII range, which covers every string the
sources compare against; digests from `hashlib` are kept abstract as a
function parameter since no claim depends on a digest value.
-/

/-- Python `str` is modelled as a list of Unicode scalar values; Lean's
`Char` carries exactly the scalar values (no lone surrogates), matching
the "valid UTF-8 text" domain of the specification. -/
abbrev PyStr := List Char

/-- Whitespace recognised by Python's `str.strip()` / `str.split()`,
modelled on the ASCII range (space, tab, newline, carriage return,
vertical tab, form feed). -/
def pyIsSpace (c : Char) : Bool :=
  c = ' ' || c = '\t' || c = '\n' || c = '\x0d' || c = '\x0b' || c = '\x0c'

/-- Python `s.strip()`: drop leading and trailing whitespace. -/
def pyStrip (s : PyStr) : PyStr :=
  ((s.dropWhile pyIsSpace).reverse.dropWhile pyIsSpace).reverse

/-- Python `''.join(s.split())`: remove every whitespace character. -/
def pyFilterWs (s : PyStr) : PyStr := s.filter (fun c => !pyIsSpace c)

/-- Python `s.lower()`, modelled on the ASCII range (every algorithm name
compared against in the sources is ASCII). -/
def pyLowerChar (c : Char) : Char :=
  if 'A' ≤ c ∧ c ≤ 'Z' then Char.ofNat (c.toNat + 32) else c

/-- Lowercase an embedded Python string. -/
def pyLower (s : PyStr) : PyStr := s.map pyLowerChar

/-- Python `s.upper()`, modelled on the ASCII range. -/
def pyUpperChar (c : Char) : Char :=
  if 'a' ≤ c ∧ c ≤ 'z' then Char.ofNat (c.toNat - 32) else c

/-- Uppercase an embedded Python string. -/
def pyUpper (s : PyStr) : PyStr := s.map pyUpperChar

theorem dropWhile_eq_self_of_none {p : Char → Bool} {s : PyStr}
    (h : ∀ c ∈ s, p c = false) : s.dropWhile p = s := by
  cases s with
  | nil => rfl
  | cons a t => simp [List.dropWhile, h a (by simp)]

theorem pyStrip_of_no_space {s : PyStr} (h : ∀ c ∈ s, pyIsSpace c = false) :
    pyStrip s = s := by
  unfold pyStrip
  rw [dropWhile_eq_self_of_none h]
  rw [dropWhile_eq_self_of_none (fun c hc => h c (List.mem_reverse.mp hc))]
  exact List.reverse_reverse s

theorem pyFilterWs_of_no_space {s : PyStr} (h : ∀ c ∈ s, pyIsSpace c = false) :
    pyFilterWs s = s := by
  unfold pyFilterWs
  exact List.filter_eq_self.mpr (fun c hc => by simp [h c hc])

/-! ## UTF-8 codec

Embeds `str.encode('utf-8')` and `bytes.decode('utf-8')` (the strict and
the `errors='replace'` variants).  Acceptance coincides with CPython's
codec: continuation bytes in `80..BF`, overlong encodings, surrogates and
values above `10FFFF` rejected. -/

/-- UTF-8 encoding of a single Unicode scalar value. -/
def utf8EncodeChar (n : Nat) : List Nat :=
  if n < 0x80 then [n]
  else if n < 0x800 then [0xC0 + n / 0x40, 0x80 + n % 0x40]
  else if n < 0x10000 then
    [0xE0 + n / 0x1000, 0x80 + n / 0x40 % 0x40, 0x80 + n % 0x40]
  else
    [0xF0 + n / 0x40000, 0x80 + n / 0x1000 % 0x40, 0x80 + n / 0x40 % 0x40, 0x80 + n % 0x40]

/-- Python `text.encode('utf-8')`. -/
def utf8Encode (s : PyStr) : List Nat := s.flatMap (fun c => utf8EncodeChar c.toNat)

/-- Continuation byte test (`80..BF`). -/
def utf8IsCont (b : Nat) : Bool := 0x80 ≤ b && b ≤ 0xBF

/-- Decoder state of the incremental UTF-8 decoder: accumulated output
(in reverse), number of continuation bytes still expected, partial value,
minimum admissible final value (rejects overlong forms), and an error
flag (latched for the strict decoder). -/
structure U8State where
  out : PyStr
  need : Nat
  acc : Nat
  minv : Nat
  bad : Bool

/-- Classify a byte arriving with no sequence pending. -/
def u8Start : U8State → Nat → U8State
  | ⟨o, _, a, mv, bd⟩, b =>
    if b < 0x80 then ⟨Char.ofNat b :: o, 0, a, mv, bd⟩
    else if 0xC2 ≤ b && b ≤ 0xDF then ⟨o, 1, b - 0xC0, 0x80, bd⟩
    else if 0xE0 ≤ b && b ≤ 0xEF then ⟨o, 2, b - 0xE0, 0x800, bd⟩
    else if 0xF0 ≤ b && b ≤ 0xF4 then ⟨o, 3, b - 0xF0, 0x10000, bd⟩
    else ⟨'\uFFFD' :: o, 0, a, mv, true⟩

/-- One byte of UTF-8 decoding.  Acceptance coincides with CPython's
codec: the completion checks reject overlong forms, surrogates and
values above `10FFFF`, which is exactly what CPython's restricted
continuation ranges for `E0`/`ED`/`F0`/`F4` enforce. -/
def u8Step : U8State → Nat → U8State
  | ⟨o, 0, a, mv, bd⟩, b => u8Start ⟨o, 0, a, mv, bd⟩ b
  | ⟨o, nd + 1, a, mv, bd⟩, b =>
    if utf8IsCont b then
      if nd = 0 then
        if mv ≤ a * 0x40 + (b - 0x80)
            && (a * 0x40 + (b - 0x80) < 0xD800 || 0xDFFF < a * 0x40 + (b - 0x80))
            && a * 0x40 + (b - 0x80) ≤ 0x10FFFF then
          ⟨Char.ofNat (a * 0x40 + (b - 0x80)) :: o, 0, a * 0x40 + (b - 0x80), mv, bd⟩
        else ⟨'\uFFFD' :: o, 0, a, mv, true⟩
      else ⟨o, nd, a * 0x40 + (b - 0x80), mv, bd⟩
    else u8Start ⟨'\uFFFD' :: o, 0, a, mv, true⟩ b

/-- Flush a pending (truncated) sequence at end of input. -/
def u8Flush : U8State → U8State
  | ⟨o, 0, a, mv, bd⟩ => ⟨o, 0, a, mv, bd⟩
  | ⟨o, _ + 1, a, mv, bd⟩ => ⟨'\uFFFD' :: o, 0, a, mv, true⟩

/-- Initial decoder state. -/
def u8Init : U8State := ⟨[], 0, 0, 0, false⟩

/-- Strict UTF-8 decoding, Python `bytes.decode('utf-8')`: `none` models
`UnicodeDecodeError`. -/
def utf8DecodeStrict (bs : List Nat) : Option PyStr :=
  let st := u8Flush (bs.foldl u8Step u8Init)
  if st.bad then none else some st.out.reverse

/-- Lossy UTF-8 decoding, Python `bytes.decode('utf-8', errors='replace')`:
undecodable sequences become U+FFFD.  The exact number of replacement
characters on malformed input can differ from CPython's maximal-subpart
rule, but the two decoders agree on all well-formed encodings, which is
all the verified properties evaluate. -/
def utf8DecodeReplace (bs : List Nat) : PyStr :=
  (u8Flush (bs.foldl u8Step u8Init)).out.reverse

theorem char_toNat_valid (c : Char) :
    c.toNat < 0xD800 ∨ (0xDFFF < c.toNat ∧ c.toNat < 0x110000) := by
  have h := c.valid
  unfold UInt32.isValidChar Nat.isValidChar at h
  exact h

theorem utf8EncodeChar_bytes_lt (n : Nat) (hn : n < 0x110000) :
    ∀ b ∈ utf8EncodeChar n, b < 256 := by
  intro b hb
  unfold utf8EncodeChar at hb
  split at hb
  · simp at hb; omega
  · split at hb
    · simp at hb; rcases hb with h | h <;> omega
    · split at hb
      · simp at hb; rcases hb with h | h | h <;> omega
      · simp at hb; rcases hb with h | h | h | h <;> omega



theorem u8Step_encodeChar (c : Char) (o : PyStr) (a mv : Nat) (bd : Bool) :
    ((utf8EncodeChar c.toNat).foldl u8Step ⟨o, 0, a, mv, bd⟩).out = c :: o
    ∧ ((utf8EncodeChar c.toNat).foldl u8Step ⟨o, 0, a, mv, bd⟩).need = 0
    ∧ ((utf8EncodeChar c.toNat).foldl u8Step ⟨o, 0, a, mv, bd⟩).bad = bd := by
  have hv := char_toNat_valid c
  have hofNat : Char.ofNat c.toNat = c := Char.ofNat_toNat c
  unfold utf8EncodeChar
  by_cases h1 : c.toNat < 0x80
  · rw [if_pos h1]
    have e1 : u8Step ⟨o, 0, a, mv, bd⟩ c.toNat = ⟨c :: o, 0, a, mv, bd⟩ := by
      simp only [u8Step, u8Start]
      rw [if_pos h1, hofNat]
    simp only [List.foldl_cons, List.foldl_nil, e1]
    refine ⟨by trivial, by trivial, by trivial⟩
  · rw [if_neg h1]
    by_cases h2 : c.toNat < 0x800
    · rw [if_pos h2]
      have e1 : u8Step ⟨o, 0, a, mv, bd⟩ (0xC0 + c.toNat / 0x40)
          = ⟨o, 1, 0xC0 + c.toNat / 0x40 - 0xC0, 0x80, bd⟩ := by
        simp only [u8Step, u8Start]
        rw [if_neg (by omega),
          if_pos (by simp only [Bool.and_eq_true, decide_eq_true_eq]; omega)]
      have e2 : u8Step ⟨o, 1, 0xC0 + c.toNat / 0x40 - 0xC0, 0x80, bd⟩ (0x80 + c.toNat % 0x40)
          = ⟨c :: o, 0, c.toNat, 0x80, bd⟩ := by
        simp only [u8Step]
        rw [if_pos (by simp only [utf8IsCont, Bool.and_eq_true, decide_eq_true_eq]; omega)]
        rw [show (0xC0 + c.toNat / 0x40 - 0xC0) * 0x40 + (0x80 + c.toNat % 0x40 - 0x80)
          = c.toNat from by omega]
        rw [if_pos (by trivial),
          if_pos (by simp only [Bool.and_eq_true, Bool.or_eq_true, decide_eq_true_eq]; omega),
          hofNat]
      simp only [List.foldl_cons, List.foldl_nil, e1, e2]
      refine ⟨by trivial, by trivial, by trivial⟩
    · rw [if_neg h2]
      by_cases h3 : c.toNat < 0x10000
      · rw [if_pos h3]
        have e1 : u8Step ⟨o, 0, a, mv, bd⟩ (0xE0 + c.toNat / 0x1000)
            = ⟨o, 2, 0xE0 + c.toNat / 0x1000 - 0xE0, 0x800, bd⟩ := by
          simp only [u8Step, u8Start]
          rw [if_neg (by omega),
            if_neg (by simp only [Bool.and_eq_true, decide_eq_true_eq]; omega),
            if_pos (by simp only [Bool.and_eq_true, decide_eq_true_eq]; omega)]
        have e2 : u8Step ⟨o, 2, 0xE0 + c.toNat / 0x1000 - 0xE0, 0x800, bd⟩
            (0x80 + c.toNat / 0x40 % 0x40)
            = ⟨o, 1, (0xE0 + c.toNat / 0x1000 - 0xE0) * 0x40
                + (0x80 + c.toNat / 0x40 % 0x40 - 0x80), 0x800, bd⟩ := by
          simp only [u8Step]
          rw [if_pos (by simp only [utf8IsCont, Bool.and_eq_true, decide_eq_true_eq]; omega)]
          rw [if_neg (by simp)]
        have e3 : u8Step ⟨o, 1, (0xE0 + c.toNat / 0x1000 - 0xE0) * 0x40
              + (0x80 + c.toNat / 0x40 % 0x40 - 0x80), 0x800, bd⟩ (0x80 + c.toNat % 0x40)
            = ⟨c :: o, 0, c.toNat, 0x800, bd⟩ := by
          simp only [u8Step]
          rw [if_pos (by simp only [utf8IsCont, Bool.and_eq_true, decide_eq_true_eq]; omega)]
          rw [show ((0xE0 + c.toNat / 0x1000 - 0xE0) * 0x40
              + (0x80 + c.toNat / 0x40 % 0x40 - 0x80)) * 0x40 + (0x80 + c.toNat % 0x40 - 0x80)
            = c.toNat from by omega]
          rw [if_pos (by trivial),
            if_pos (by simp only [Bool.and_eq_true, Bool.or_eq_true, decide_eq_true_eq]; omega),
            hofNat]
        simp only [List.foldl_cons, List.foldl_nil, e1, e2, e3]
        refine ⟨by trivial, by trivial, by trivial⟩
      · rw [if_neg h3]
        have h4 : c.toNat < 0x110000 := by omega
        have e1 : u8Step ⟨o, 0, a, mv, bd⟩ (0xF0 + c.toNat / 0x40000)
            = ⟨o, 3, 0xF0 + c.toNat / 0x40000 - 0xF0, 0x10000, bd⟩ := by
          simp only [u8Step, u8Start]
          rw [if_neg (by omega),
            if_neg (by simp only [Bool.and_eq_true, decide_eq_true_eq]; omega),
            if_neg (by simp only [Bool.and_eq_true, decide_eq_true_eq]; omega),
            if_pos (by simp only [Bool.and_eq_true, decide_eq_true_eq]; omega)]
        have e2 : u8Step ⟨o, 3, 0xF0 + c.toNat / 0x40000 - 0xF0, 0x10000, bd⟩
            (0x80 + c.toNat / 0x1000 % 0x40)
            = ⟨o, 2, (0xF0 + c.toNat / 0x40000 - 0xF0) * 0x40
                + (0x80 + c.toNat / 0x1000 % 0x40 - 0x80), 0x10000, bd⟩ := by
          simp only [u8Step]
          rw [if_pos (by simp only [utf8IsCont, Bool.and_eq_true, decide_eq_true_eq]; omega)]
          rw [if_neg (by simp)]
        have e3 : u8Step ⟨o, 2, (0xF0 + c.toNat / 0x40000 - 0xF0) * 0x40
              + (0x80 + c.toNat / 0x1000 % 0x40 - 0x80), 0x10000, bd⟩
            (0x80 + c.toNat / 0x40 % 0x40)
            = ⟨o, 1, ((0xF0 + c.toNat / 0x40000 - 0xF0) * 0x40
                + (0x80 + c.toNat / 0x1000 % 0x40 - 0x80)) * 0x40
                + (0x80 + c.toNat / 0x40 % 0x40 - 0x80), 0x10000, bd⟩ := by
          simp only [u8Step]
          rw [if_pos (by simp only [utf8IsCont, Bool.and_eq_true, decide_eq_true_eq]; omega)]
          rw [if_neg (by simp)]
        have e4 : u8Step ⟨o, 1, ((0xF0 + c.toNat / 0x40000 - 0xF0) * 0x40
              + (0x80 + c.toNat / 0x1000 % 0x40 - 0x80)) * 0x40
              + (0x80 + c.toNat / 0x40 % 0x40 - 0x80), 0x10000, bd⟩ (0x80 + c.toNat % 0x40)
            = ⟨c :: o, 0, c.toNat, 0x10000, bd⟩ := by
          simp only [u8Step]
          rw [if_pos (by simp only [utf8IsCont, Bool.and_eq_true, decide_eq_true_eq]; omega)]
          rw [show (((0xF0 + c.toNat / 0x40000 - 0xF0) * 0x40
              + (0x80 + c.toNat / 0x1000 % 0x40 - 0x80)) * 0x40
              + (0x80 + c.toNat / 0x40 % 0x40 - 0x80)) * 0x40 + (0x80 + c.toNat % 0x40 - 0x80)
            = c.toNat from by omega]
          rw [if_pos (by trivial),
            if_pos (by simp only [Bool.and_eq_true, Bool.or_eq_true, decide_eq_true_eq]; omega),
            hofNat]
        simp only [List.foldl_cons, List.foldl_nil, e1, e2, e3, e4]
        refine ⟨by trivial, by trivial, by trivial⟩

theorem u8_run_utf8Encode (s : PyStr) (o : PyStr) (a mv : Nat) (bd : Bool) :
    ((utf8Encode s).foldl u8Step ⟨o, 0, a, mv, bd⟩).out = s.reverse ++ o
    ∧ ((utf8Encode s).foldl u8Step ⟨o, 0, a, mv, bd⟩).need = 0
    ∧ ((utf8Encode s).foldl u8Step ⟨o, 0, a, mv, bd⟩).bad = bd := by
  induction s generalizing o a mv bd with
  | nil => refine ⟨by trivial, by trivial, by trivial⟩
  | cons c cs ih =>
    have hsplit : utf8Encode (c :: cs) = utf8EncodeChar c.toNat ++ utf8Encode cs := by
      simp [utf8Encode]
    obtain ⟨g1, g2, g3⟩ := u8Step_encodeChar c o a mv bd
    obtain ⟨st2, hst2⟩ : ∃ st2, (utf8EncodeChar c.toNat).foldl u8Step ⟨o, 0, a, mv, bd⟩ = st2 :=
      ⟨_, rfl⟩
    rw [hst2] at g1 g2 g3
    obtain ⟨o2, nd2, a2, mv2, bd2⟩ := st2
    simp only at g1 g2 g3
    subst g2
    rw [hsplit, List.foldl_append, hst2]
    obtain ⟨r1, r2, r3⟩ := ih o2 a2 mv2 bd2
    refine ⟨?_, r2, ?_⟩
    · rw [r1, g1]
      simp
    · rw [r3, g3]

/-- Strict decoding inverts encoding on every embedded Python string. -/
theorem utf8DecodeStrict_utf8Encode (s : PyStr) :
    utf8DecodeStrict (utf8Encode s) = some s := by
  obtain ⟨h1, h2, h3⟩ := u8_run_utf8Encode s [] 0 0 false
  unfold utf8DecodeStrict
  obtain ⟨st, hst⟩ : ∃ st, (utf8Encode s).foldl u8Step u8Init = st := ⟨_, rfl⟩
  rw [show u8Init = (⟨[], 0, 0, 0, false⟩ : U8State) from rfl] at hst
  rw [hst] at h1 h2 h3
  obtain ⟨o, nd, a, mv, bd⟩ := st
  simp only at h1 h2 h3
  subst h1 h2 h3
  simp [u8Init, hst, u8Flush]

/-- Lossy decoding also inverts encoding on every embedded Python string. -/
theorem utf8DecodeReplace_utf8Encode (s : PyStr) :
    utf8DecodeReplace (utf8Encode s) = s := by
  obtain ⟨h1, h2, _⟩ := u8_run_utf8Encode s [] 0 0 false
  unfold utf8DecodeReplace
  obtain ⟨st, hst⟩ : ∃ st, (utf8Encode s).foldl u8Step u8Init = st := ⟨_, rfl⟩
  rw [show u8Init = (⟨[], 0, 0, 0, false⟩ : U8State) from rfl] at hst
  rw [hst] at h1 h2
  obtain ⟨o, nd, a, mv, bd⟩ := st
  simp only at h1 h2
  subst h1 h2
  simp [u8Init, hst, u8Flush]

/-! ## Base64 (`src/core/utilities/base64_utility.py`)

The `base64.b64encode` / `base64.b64decode` library routines are embedded
as `b64encodeBytes` / `b64decodeBytes` (standard RFC 4648 grouping;
`b64decodeBytes` accepts padding only in the final quad, which agrees
with the library on every string that passes the utility's own
`_is_valid_base64` gate, the only place it is applied). -/

deriving instance DecidableEq for Except

/-- Standard Base64 alphabet. -/
def b64alphabet : PyStr :=
  "ABCDEFGHIJKLMNOPQRSTUVWXYZabcdefghijklmnopqrstuvwxyz0123456789+/".toList

/-- Character for a 6-bit group. -/
def b64char (v : Nat) : Char := b64alphabet.getD v 'A'

/-- Index of a Base64 character (`none` for a non-alphabet character). -/
def b64index (c : Char) : Option Nat := b64alphabet.indexOf? c

/-- Embedding of `base64.b64encode` on a byte list. -/
def b64encodeBytes : List Nat → PyStr
  | [] => []
  | [a] => [b64char (a / 4), b64char (a % 4 * 16), '=', '=']
  | [a, b] => [b64char (a / 4), b64char (a % 4 * 16 + b / 16), b64char (b % 16 * 4), '=']
  | a :: b :: c :: rest =>
    b64char (a / 4) :: b64char (a % 4 * 16 + b / 16) :: b64char (b % 16 * 4 + c / 64)
      :: b64char (c % 64) :: b64encodeBytes rest

/-- Embedding of `base64.b64decode` on a cleaned string. -/
def b64decodeBytes : PyStr → Option (List Nat)
  | [] => some []
  | c1 :: c2 :: c3 :: c4 :: rest =>
    (b64index c1).bind fun v1 =>
      (b64index c2).bind fun v2 =>
        if rest = [] ∧ c3 = '=' ∧ c4 = '=' then some [v1 * 4 + v2 / 16]
        else if rest = [] ∧ c4 = '=' then
          (b64index c3).map fun v3 => [v1 * 4 + v2 / 16, v2 % 16 * 16 + v3 / 4]
        else
          (b64index c3).bind fun v3 =>
            (b64index c4).bind fun v4 =>
              (b64decodeBytes rest).map fun rs =>
                (v1 * 4 + v2 / 16) :: (v2 % 16 * 16 + v3 / 4) :: (v3 % 4 * 64 + v4) :: rs
  | _ => none

namespace Base64Utility

/-- Embedding of `Base64Utility._is_valid_base64`. -/
def is_valid_base64 (text : PyStr) : Bool :=
  let t := pyFilterWs text
  if t.length % 4 ≠ 0 then false
  else if !(t.all (fun c => (b64alphabet ++ ['=']).contains c)) then false
  else if t.contains '=' then
    let i := (t.takeWhile (fun c => c ≠ '=')).length
    let suffix := t.drop i
    if suffix.all (fun c => c = '=') then
      decide (suffix = ['='] ∨ suffix = ['=', '='])
    else false
  else true

/-- Result record of `Base64Utility.encode` (the two float-valued
statistics fields are omitted from the embedding; no claim concerns
them). -/
structure EncodeResult where
  encoded : PyStr
  original_text : PyStr
  original_length : Nat
  encoded_length : Nat
  padding_chars : Nat
  is_valid : Bool
  deriving DecidableEq

/-- Result record of `Base64Utility.decode` (float statistics omitted). -/
structure DecodeResult where
  decoded : PyStr
  original_encoded : PyStr
  encoded_length : Nat
  decoded_length : Nat
  padding_chars : Nat
  bytes_decoded : Nat
  deriving DecidableEq

/-- Embedding of `Base64Utility.encode`.  The UTF-8 encoding step cannot
fail on `PyStr` (no lone surrogates), so the `try` wrapper of the source
collapses to the success path. -/
def encode (text : PyStr) : Except PyStr EncodeResult :=
  if text = [] then .error "Input text cannot be empty".toList
  else
    let encoded := b64encodeBytes (utf8Encode text)
    .ok { encoded := encoded, original_text := text, original_length := text.length,
          encoded_length := encoded.length, padding_chars := encoded.count '=',
          is_valid := is_valid_base64 encoded }

/-- Embedding of `Base64Utility.decode` (error strings carry the fixed
message prefix of the source; the interpolated exception text is not
modelled). -/
def decode (encoded_text : PyStr) : Except PyStr DecodeResult :=
  if encoded_text = [] then .error "Input text cannot be empty".toList
  else
    let t := pyStrip encoded_text
    if is_valid_base64 t = false then
      .error "Invalid Base64 format. Base64 should contain only A-Z, a-z, 0-9, +, /, and = for padding".toList
    else
      match b64decodeBytes (pyFilterWs t) with
      | none => .error "Invalid Base64 input".toList
      | some bytes =>
        match utf8DecodeStrict bytes with
        | none => .error "Decoded bytes are not valid UTF-8 text".toList
        | some decoded =>
          .ok { decoded := decoded, original_encoded := t, encoded_length := t.length,
                decoded_length := decoded.length, padding_chars := t.count '=',
                bytes_decoded := bytes.length }

end Base64Utility

example : b64encodeBytes (utf8Encode "Hello".toList) = "SGVsbG8=".toList := by decide

example : (Base64Utility.decode "SGVsbG8=".toList).map (·.decoded) = .ok "Hello".toList := by
  decide

theorem b64char_mem (v : Nat) : b64char v ∈ b64alphabet := by
  by_cases h : v < 64
  · have hall : ∀ w, w < 64 → b64char w ∈ b64alphabet := by decide
    exact hall v h
  · unfold b64char
    rw [List.getD_eq_default]
    · decide
    · have : b64alphabet.length = 64 := by decide
      omega

theorem b64char_ne_pad (v : Nat) : b64char v ≠ '=' := by
  intro h
  have hm := b64char_mem v
  rw [h] at hm
  exact absurd hm (by decide)

theorem b64char_not_space (v : Nat) : pyIsSpace (b64char v) = false := by
  have hm := b64char_mem v
  have hall : ∀ c ∈ b64alphabet, pyIsSpace c = false := by decide
  exact hall _ hm

theorem b64index_b64char : ∀ v, v < 64 → b64index (b64char v) = some v := by decide

theorem b64decodeBytes_encodeBytes :
    ∀ bs : List Nat, (∀ b ∈ bs, b < 256) → b64decodeBytes (b64encodeBytes bs) = some bs
  | [], _ => rfl
  | [a], h => by
    have ha : a < 256 := h a (by simp)
    show b64decodeBytes [b64char (a / 4), b64char (a % 4 * 16), '=', '='] = some [a]
    simp only [b64decodeBytes]
    rw [b64index_b64char _ (by omega), b64index_b64char _ (by omega)]
    simp only [Option.bind]
    rw [if_pos (by simp)]
    congr 2
    omega
  | [a, b], h => by
    have ha : a < 256 := h a (by simp)
    have hb : b < 256 := h b (by simp)
    show b64decodeBytes
        [b64char (a / 4), b64char (a % 4 * 16 + b / 16), b64char (b % 16 * 4), '='] = some [a, b]
    simp only [b64decodeBytes]
    rw [b64index_b64char _ (by omega), b64index_b64char _ (by omega)]
    simp only [Option.bind]
    rw [if_neg (fun hc => b64char_ne_pad _ hc.2.1)]
    rw [if_pos (by simp)]
    rw [b64index_b64char _ (by omega)]
    simp only [Option.map]
    congr 3
    · omega
    · omega
  | a :: b :: c :: rest, h => by
    have ha : a < 256 := h a (by simp)
    have hb : b < 256 := h b (by simp)
    have hc : c < 256 := h c (by simp)
    have ih := b64decodeBytes_encodeBytes rest (fun x hx => h x (by simp [hx]))
    show b64decodeBytes (b64char (a / 4) :: b64char (a % 4 * 16 + b / 16)
      :: b64char (b % 16 * 4 + c / 64) :: b64char (c % 64) :: b64encodeBytes rest)
      = some (a :: b :: c :: rest)
    simp only [b64decodeBytes]
    rw [b64index_b64char _ (by omega), b64index_b64char _ (by omega)]
    simp only [Option.bind]
    rw [if_neg (fun hcond => b64char_ne_pad _ hcond.2.1)]
    rw [if_neg (fun hcond => b64char_ne_pad _ hcond.2)]
    rw [b64index_b64char _ (by omega), b64index_b64char _ (by omega)]
    simp only [Option.bind]
    rw [ih]
    simp only [Option.map]
    congr 2
    · omega
    · congr 1
      · omega
      · congr 1
        omega

theorem b64encodeBytes_shape : ∀ bs : List Nat, ∃ body pads,
    b64encodeBytes bs = body ++ pads ∧ (∀ c ∈ body, c ∈ b64alphabet) ∧
    (pads = [] ∨ pads = ['='] ∨ pads = ['=', '='])
  | [] => ⟨[], [], rfl, by simp, .inl rfl⟩
  | [a] => ⟨[b64char (a / 4), b64char (a % 4 * 16)], ['=', '='], rfl, by
      intro c hcm
      simp only [List.mem_cons, List.not_mem_nil, or_false] at hcm
      rcases hcm with h | h <;> (subst h; exact b64char_mem _), .inr (.inr rfl)⟩
  | [a, b] => ⟨[b64char (a / 4), b64char (a % 4 * 16 + b / 16), b64char (b % 16 * 4)],
      ['='], rfl, by
      intro c hcm
      simp only [List.mem_cons, List.not_mem_nil, or_false] at hcm
      rcases hcm with h | h | h <;> (subst h; exact b64char_mem _), .inr (.inl rfl)⟩
  | a :: b :: c :: rest => by
    obtain ⟨body, pads, he, hbm, hp⟩ := b64encodeBytes_shape rest
    refine ⟨b64char (a / 4) :: b64char (a % 4 * 16 + b / 16)
      :: b64char (b % 16 * 4 + c / 64) :: b64char (c % 64) :: body, pads, ?_, ?_, hp⟩
    · show b64char (a / 4) :: b64char (a % 4 * 16 + b / 16)
        :: b64char (b % 16 * 4 + c / 64) :: b64char (c % 64) :: b64encodeBytes rest = _
      rw [he]
      simp
    · intro x hx
      simp only [List.mem_cons] at hx
      rcases hx with h | h | h | h | h
      · subst h; exact b64char_mem _
      · subst h; exact b64char_mem _
      · subst h; exact b64char_mem _
      · subst h; exact b64char_mem _
      · exact hbm x h

theorem b64encodeBytes_len : ∀ bs : List Nat, (b64encodeBytes bs).length % 4 = 0
  | [] => rfl
  | [a] => by simp [b64encodeBytes]
  | [a, b] => by simp [b64encodeBytes]
  | a :: b :: c :: rest => by
    show (b64char (a / 4) :: b64char (a % 4 * 16 + b / 16)
      :: b64char (b % 16 * 4 + c / 64) :: b64char (c % 64) :: b64encodeBytes rest).length % 4 = 0
    have ih := b64encodeBytes_len rest
    simp only [List.length_cons]
    omega

theorem b64encodeBytes_mem (bs : List Nat) :
    ∀ x ∈ b64encodeBytes bs, x ∈ b64alphabet ++ ['='] := by
  obtain ⟨body, pads, he, hbm, hp⟩ := b64encodeBytes_shape bs
  intro x hx
  rw [he] at hx
  rcases List.mem_append.mp hx with h | h
  · exact List.mem_append.mpr (.inl (hbm x h))
  · rcases hp with h2 | h2 | h2 <;> subst h2 <;> simp_all

theorem b64encodeBytes_no_space (bs : List Nat) :
    ∀ x ∈ b64encodeBytes bs, pyIsSpace x = false := by
  intro x hx
  have hm := b64encodeBytes_mem bs x hx
  have hall : ∀ c ∈ b64alphabet ++ ['='], pyIsSpace c = false := by decide
  exact hall _ hm

theorem takeWhile_append_stop {p : Char → Bool} :
    ∀ (l1 : PyStr) (c : Char) (l2 : PyStr), (∀ x ∈ l1, p x = true) → p c = false →
      (l1 ++ c :: l2).takeWhile p = l1
  | [], c, l2, _, hpc => by simp [List.takeWhile_cons, hpc]
  | a :: t, c, l2, hall, hpc => by
    simp only [List.cons_append, List.takeWhile_cons, hall a (by simp)]
    rw [takeWhile_append_stop t c l2 (fun x hx => hall x (by simp [hx])) hpc]
    simp

theorem is_valid_base64_encodeBytes (bs : List Nat) :
    Base64Utility.is_valid_base64 (b64encodeBytes bs) = true := by
  obtain ⟨body, pads, he, hbm, hp⟩ := b64encodeBytes_shape bs
  have hlen := b64encodeBytes_len bs
  have hnos := b64encodeBytes_no_space bs
  have hmem := b64encodeBytes_mem bs
  rw [he] at hlen hnos hmem ⊢
  have hbody_ne : ∀ x ∈ body, (fun c => decide (c ≠ '=')) x = true := by
    intro x hx
    simp only [ne_eq, decide_eq_true_eq]
    intro hcontra
    subst hcontra
    exact absurd (hbm _ hx) (by decide)
  simp only [Base64Utility.is_valid_base64]
  rw [pyFilterWs_of_no_space hnos]
  rw [if_neg (by omega)]
  rw [if_neg (by
    simp only [Bool.not_eq_true', Bool.not_eq_false, List.all_eq_true]
    intro c hcm
    exact List.elem_eq_true_of_mem (hmem c hcm))]
  rcases hp with h2 | h2 | h2
  · subst h2
    rw [if_neg (by
      rw [List.append_nil]
      intro hc
      exact absurd (hbm _ (List.mem_of_elem_eq_true hc)) (by decide))]
  · subst h2
    rw [if_pos (List.elem_eq_true_of_mem (by simp))]
    rw [takeWhile_append_stop body '=' [] hbody_ne (by decide)]
    rw [List.drop_left]
    decide
  · subst h2
    rw [if_pos (List.elem_eq_true_of_mem (by simp))]
    have : body ++ ['=', '='] = body ++ '=' :: ['='] := rfl
    rw [this, takeWhile_append_stop body '=' ['='] hbody_ne (by decide)]
    rw [show (body ++ '=' :: ['=']) = body ++ ['=', '='] from rfl, List.drop_left]
    decide

theorem utf8EncodeChar_ne_nil (n : Nat) : utf8EncodeChar n ≠ [] := by
  unfold utf8EncodeChar
  split_ifs <;> simp

theorem utf8Encode_ne_nil {s : PyStr} (h : s ≠ []) : utf8Encode s ≠ [] := by
  cases s with
  | nil => exact absurd rfl h
  | cons c cs =>
    show utf8EncodeChar c.toNat ++ utf8Encode cs ≠ []
    simp [utf8EncodeChar_ne_nil]

theorem b64encodeBytes_ne_nil : ∀ bs : List Nat, bs ≠ [] → b64encodeBytes bs ≠ []
  | [], h => absurd rfl h
  | [a], _ => by simp [b64encodeBytes]
  | [a, b], _ => by simp [b64encodeBytes]
  | a :: b :: c :: rest, _ => by simp [b64encodeBytes]

theorem utf8Encode_bytes_lt (s : PyStr) : ∀ b ∈ utf8Encode s, b < 256 := by
  intro b hb
  obtain ⟨c, _, hmem⟩ := List.mem_flatMap.mp hb
  have hv := char_toNat_valid c
  exact utf8EncodeChar_bytes_lt c.toNat (by omega) b hmem

/-- C1: for all non-empty valid UTF-8 text `x`, Base64-decoding the
result of Base64-encoding `x` returns `x`:
`decode(encode(x)["encoded"])["decoded"] == x`.  (The original claim
quantified over all text; `encode` rejects the empty string, see the
separate counterexample.) -/
theorem C1_base64_roundtrip (x : PyStr) (hx : x ≠ []) :
    (Base64Utility.encode x).bind
      (fun e => (Base64Utility.decode e.encoded).map (fun d => d.decoded)) = .ok x := by
  unfold Base64Utility.encode
  rw [if_neg hx]
  show (Base64Utility.decode (b64encodeBytes (utf8Encode x))).map (fun d => d.decoded) = .ok x
  unfold Base64Utility.decode
  have hene : b64encodeBytes (utf8Encode x) ≠ [] :=
    b64encodeBytes_ne_nil _ (utf8Encode_ne_nil hx)
  rw [if_neg hene]
  have hnos := b64encodeBytes_no_space (utf8Encode x)
  rw [pyStrip_of_no_space hnos]
  rw [if_neg (by rw [is_valid_base64_encodeBytes]; simp)]
  rw [pyFilterWs_of_no_space hnos]
  rw [b64decodeBytes_encodeBytes _ (utf8Encode_bytes_lt x)]
  simp [utf8DecodeStrict_utf8Encode, Except.map]

/-- C1 counterexample: at `x = ""` the claimed round-trip equation fails
because `encode` raises "Input text cannot be empty" instead of
returning an encoded value. -/
theorem C1_base64_roundtrip_empty_cex :
    (Base64Utility.encode []).bind
      (fun e => (Base64Utility.decode e.encoded).map (fun d => d.decoded)) ≠ .ok ([] : PyStr)
    ∧ Base64Utility.encode [] = .error "Input text cannot be empty".toList := by
  constructor
  · decide
  · decide

/-- C1 witness: the round-trip theorem applied to a concrete mixed-width
Unicode string. -/
theorem C1_base64_roundtrip_witness :
    ("Héllo, 世界!".toList ≠ ([] : PyStr))
    ∧ (Base64Utility.encode "Héllo, 世界!".toList).bind
        (fun e => (Base64Utility.decode e.encoded).map (fun d => d.decoded))
        = .ok "Héllo, 世界!".toList :=
  ⟨by decide, C1_base64_roundtrip _ (by decide)⟩

/-! ## URL utility (`src/core/utilities/url_utility.py`)

`urllib.parse.quote` / `quote_plus` / `unquote` / `unquote_plus` are
embedded below.  `quote` is modelled character-wise (equivalent to
CPython's byte-wise quoting because every safe set used by the source is
ASCII); `unquote` follows CPython's algorithm: percent pairs and literal
ASCII characters of a maximal ASCII run are collected into one byte
string and decoded as UTF-8 with `errors='replace'`, while non-ASCII
characters pass through unchanged. -/

/-- Characters `urllib.parse` never quotes (`_ALWAYS_SAFE`). -/
def alwaysSafe : PyStr :=
  "ABCDEFGHIJKLMNOPQRSTUVWXYZabcdefghijklmnopqrstuvwxyz0123456789_.-~".toList

/-- Upper-case hex digit. -/
def hexUpperChar (v : Nat) : Char := "0123456789ABCDEF".toList.getD v '0'

/-- Percent-encode one byte (`%XX`, upper-case as in CPython). -/
def pctEncodeByte (b : Nat) : PyStr := ['%', hexUpperChar (b / 16), hexUpperChar (b % 16)]

/-- Quote one character for a given additional safe set. -/
def quoteChar (safe : PyStr) (c : Char) : PyStr :=
  if c ∈ alwaysSafe ∨ c ∈ safe then [c]
  else (utf8EncodeChar c.toNat).flatMap pctEncodeByte

/-- Embedding of `urllib.parse.quote` (the `safe` argument as a list of
characters; the source calls it with `safe='/'`, `safe=''` and, via
`quote_plus`, `safe=' '`). -/
def quote (safe : PyStr) (s : PyStr) : PyStr := s.flatMap (quoteChar safe)

/-- Replace spaces by plus signs (final step of `quote_plus`). -/
def spaceToPlus (s : PyStr) : PyStr := s.map fun c => if c = ' ' then '+' else c

/-- Replace plus signs by spaces (first step of `unquote_plus`). -/
def plusToSpace (s : PyStr) : PyStr := s.map fun c => if c = '+' then ' ' else c

/-- Embedding of `urllib.parse.quote_plus` with its default empty safe
set. -/
def quote_plus (s : PyStr) : PyStr :=
  if ' ' ∈ s then spaceToPlus (quote [' '] s) else quote [] s

/-- Value of a hex digit character, either case. -/
def hexVal? (c : Char) : Option Nat :=
  if '0' ≤ c ∧ c ≤ '9' then some (c.toNat - 48)
  else if 'A' ≤ c ∧ c ≤ 'F' then some (c.toNat - 55)
  else if 'a' ≤ c ∧ c ≤ 'f' then some (c.toNat - 87)
  else none

/-- Scanner state of the percent-decoder: tokens collected so far (in
reverse; `Sum.inl` a byte, `Sum.inr` a non-ASCII character that passes
through) and the pending partial percent escape. -/
structure UQState where
  toks : List (Nat ⊕ Char)
  pend : Option (Option Char)

/-- Classify a character with no pending escape. -/
def uqNormal (toks : List (Nat ⊕ Char)) (c : Char) : UQState :=
  if c = '%' then ⟨toks, some none⟩
  else if c.toNat < 0x80 then ⟨Sum.inl c.toNat :: toks, none⟩
  else ⟨Sum.inr c :: toks, none⟩

/-- One character of percent-scanning (a failed escape emits the literal
`%` byte, then any stored hex digit, then reclassifies the current
character, matching `unquote_to_bytes`). -/
def uqStep (st : UQState) (c : Char) : UQState :=
  match st.pend with
  | none => uqNormal st.toks c
  | some none =>
    if (hexVal? c).isSome then ⟨st.toks, some (some c)⟩
    else uqNormal (Sum.inl 37 :: st.toks) c
  | some (some h1) =>
    match hexVal? h1, hexVal? c with
    | some v1, some v2 => ⟨Sum.inl (16 * v1 + v2) :: st.toks, none⟩
    | _, _ => uqNormal (Sum.inl h1.toNat :: Sum.inl 37 :: st.toks) c

/-- Flush an unfinished escape at end of input. -/
def uqFlush (st : UQState) : List (Nat ⊕ Char) :=
  match st.pend with
  | none => st.toks
  | some none => Sum.inl 37 :: st.toks
  | some (some h1) => Sum.inl h1.toNat :: Sum.inl 37 :: st.toks

/-- Token stream of `unquote` for a string. -/
def unquoteTokens (s : PyStr) : List (Nat ⊕ Char) :=
  (uqFlush (s.foldl uqStep ⟨[], none⟩)).reverse

/-- Assemble tokens: each maximal run of bytes is decoded as UTF-8 with
replacement (CPython decodes each ASCII chunk's bytes in one call). -/
def unquoteAssemble : List (Nat ⊕ Char) → List Nat → PyStr
  | [], acc => utf8DecodeReplace acc.reverse
  | Sum.inl b :: rest, acc => unquoteAssemble rest (b :: acc)
  | Sum.inr c :: rest, acc => utf8DecodeReplace acc.reverse ++ c :: unquoteAssemble rest []

/-- Embedding of `urllib.parse.unquote`. -/
def unquote (s : PyStr) : PyStr := unquoteAssemble (unquoteTokens s) []

/-- Embedding of `urllib.parse.unquote_plus`. -/
def unquote_plus (s : PyStr) : PyStr := unquote (plusToSpace s)

/-- Substring test (Python's `in` on strings). -/
def containsSub (pat : PyStr) : PyStr → Bool
  | [] => decide (pat = [])
  | c :: rest => pat.isPrefixOf (c :: rest) || containsSub pat rest

example : unquote "Hello%20W%C3%B6rld%".toList = "Hello Wörld%".toList := by decide
example : unquote_plus "a+b%2Bc".toList = "a b+c".toList := by decide
example : quote ['/'] "a b/é".toList = "a%20b/%C3%A9".toList := by decide
example : quote_plus "a b+/".toList = "a+b%2B%2F".toList := by decide
example : containsSub "%20".toList "a%20b".toList = true := by decide

namespace URLUtility

/-- Result record of `URLUtility.encode` (float statistics omitted). -/
structure EncodeResult where
  encoded : PyStr
  original_text : PyStr
  encoding_type : PyStr
  description : PyStr
  original_length : Nat
  encoded_length : Nat
  percent_encoded_chars : Nat
  plus_encoded_chars : Nat
  characters_encoded : Nat
  safe_characters : PyStr
  deriving DecidableEq

/-- Result record of `URLUtility.decode` (float statistics omitted). -/
structure DecodeResult where
  decoded : PyStr
  original_encoded : PyStr
  decoding_type : PyStr
  description : PyStr
  encoded_length : Nat
  decoded_length : Nat
  percent_encoded_chars : Nat
  plus_encoded_chars : Nat
  characters_decoded : Nat
  deriving DecidableEq

/-- Embedding of `URLUtility._get_safe_characters`. -/
def get_safe_characters (encoding_type : PyStr) : PyStr :=
  if encoding_type = "standard".toList then
    "A-Z a-z 0-9 - . _ ~ : / ? # [ ] @ ! $ & \x27 ( ) * + , ; =".toList
  else if encoding_type = "plus".toList then
    "A-Z a-z 0-9 - . _ ~ : / ? # [ ] @ ! $ & \x27 ( ) * , ; =".toList
  else "A-Z a-z 0-9 - . _ ~".toList

/-- Embedding of `URLUtility.encode`. -/
def encode (text : PyStr) (encoding_type : PyStr) : Except PyStr EncodeResult :=
  if text = [] then .error "Input text cannot be empty".toList
  else
    let et := pyStrip (pyLower encoding_type)
    if h : et = "standard".toList ∨ et = "plus".toList ∨ et = "component".toList then
      let encoded :=
        if et = "standard".toList then quote ['/'] text
        else if et = "plus".toList then quote_plus text
        else quote [] text
      let description :=
        if et = "standard".toList then "Standard percent encoding (RFC 3986)".toList
        else if et = "plus".toList then "Form data encoding (+ for spaces)".toList
        else "Component encoding (encode all special characters)".toList
      let pct := encoded.count '%'
      let plus := if et = "plus".toList then encoded.count '+' else 0
      .ok { encoded := encoded, original_text := text, encoding_type := et,
            description := description, original_length := text.length,
            encoded_length := encoded.length, percent_encoded_chars := pct,
            plus_encoded_chars := plus, characters_encoded := pct + plus,
            safe_characters := get_safe_characters et }
    else .error "Encoding type must be one of: \x27standard\x27, \x27plus\x27, \x27component\x27".toList

/-- Embedding of `URLUtility.decode`. -/
def decode (encoded_text : PyStr) (encoding_type : PyStr) : Except PyStr DecodeResult :=
  if encoded_text = [] then .error "Input text cannot be empty".toList
  else
    let et := pyStrip (pyLower encoding_type)
    if h : et = "standard".toList ∨ et = "plus".toList ∨ et = "auto".toList then
      let auto_plus := '+' ∈ encoded_text ∧ ¬ containsSub "%20".toList encoded_text = true
      let detected :=
        if et = "auto".toList then
          if auto_plus then "plus".toList else "standard".toList
        else et
      let decoded :=
        if et = "auto".toList then
          if auto_plus then unquote_plus encoded_text else unquote encoded_text
        else if et = "plus".toList then unquote_plus encoded_text
        else unquote encoded_text
      let description :=
        if et = "auto".toList then
          if auto_plus then "Auto-detected: Form data encoding (+ for spaces)".toList
          else "Auto-detected: Standard percent encoding".toList
        else if et = "plus".toList then "Form data decoding (+ to spaces)".toList
        else "Standard percent decoding".toList
      let pct := encoded_text.count '%'
      let plus := encoded_text.count '+'
      .ok { decoded := decoded, original_encoded := encoded_text,
            decoding_type := detected, description := description,
            encoded_length := encoded_text.length, decoded_length := decoded.length,
            percent_encoded_chars := pct, plus_encoded_chars := plus,
            characters_decoded := pct + (if detected = "plus".toList then plus else 0) }
    else .error "Decoding type must be one of: \x27standard\x27, \x27plus\x27, \x27auto\x27".toList

end URLUtility

example : (URLUtility.encode "a b".toList "plus".toList).map (fun e => e.encoded)
    = .ok "a+b".toList := by decide

example : (URLUtility.decode "a+b%21".toList "plus".toList).map (fun d => d.decoded)
    = .ok "a b!".toList := by decide

theorem hexVal?_hexUpperChar : ∀ v, v < 16 → hexVal? (hexUpperChar v) = some v := by decide

theorem hexUpperChar_ne_plus (v : Nat) : hexUpperChar v ≠ '+' := by
  by_cases h : v < 16
  · revert h
    revert v
    decide
  · unfold hexUpperChar
    rw [List.getD_eq_default]
    · decide
    · have : ("0123456789ABCDEF".toList).length = 16 := by decide
      omega

theorem uq_run_pct : ∀ (bs : List Nat), (∀ b ∈ bs, b < 256) → ∀ toks,
    (bs.flatMap pctEncodeByte).foldl uqStep ⟨toks, none⟩
      = ⟨bs.reverse.map Sum.inl ++ toks, none⟩
  | [], _, toks => by simp
  | b :: rest, h, toks => by
    have hb : b < 256 := h b (by simp)
    have h1 := hexVal?_hexUpperChar (b / 16) (by omega)
    have h2 := hexVal?_hexUpperChar (b % 16) (by omega)
    show (pctEncodeByte b ++ rest.flatMap pctEncodeByte).foldl uqStep ⟨toks, none⟩ = _
    rw [List.foldl_append]
    have e : (pctEncodeByte b).foldl uqStep ⟨toks, none⟩ = ⟨Sum.inl b :: toks, none⟩ := by
      simp only [pctEncodeByte, List.foldl_cons, List.foldl_nil]
      have s1 : uqStep ⟨toks, none⟩ '%' = ⟨toks, some none⟩ := by
        simp [uqStep, uqNormal]
      rw [s1]
      have s2 : uqStep ⟨toks, some none⟩ (hexUpperChar (b / 16))
          = ⟨toks, some (some (hexUpperChar (b / 16)))⟩ := by
        simp [uqStep, h1]
      rw [s2]
      have s3 : uqStep ⟨toks, some (some (hexUpperChar (b / 16)))⟩ (hexUpperChar (b % 16))
          = ⟨Sum.inl (16 * (b / 16) + b % 16) :: toks, none⟩ := by
        simp [uqStep, h1, h2]
      rw [s3, show 16 * (b / 16) + b % 16 = b from by omega]
    rw [e, uq_run_pct rest (fun x hx => h x (by simp [hx])) (Sum.inl b :: toks)]
    simp

theorem uq_run_quote (safe : PyStr) (hsafe : ∀ c ∈ safe, c.toNat < 0x80 ∧ c ≠ '%') :
    ∀ (s : PyStr) (toks), (quote safe s).foldl uqStep ⟨toks, none⟩
      = ⟨(utf8Encode s).reverse.map Sum.inl ++ toks, none⟩
  | [], toks => by simp [quote, utf8Encode]
  | c :: cs, toks => by
    show (quoteChar safe c ++ quote safe cs).foldl uqStep ⟨toks, none⟩ = _
    rw [List.foldl_append]
    have hvc := char_toNat_valid c
    have hsplit : utf8Encode (c :: cs) = utf8EncodeChar c.toNat ++ utf8Encode cs := by
      simp [utf8Encode]
    unfold quoteChar
    by_cases hc : c ∈ alwaysSafe ∨ c ∈ safe
    · rw [if_pos hc]
      have hascii : c.toNat < 0x80 ∧ c ≠ '%' := by
        rcases hc with h | h
        · have hall : ∀ x ∈ alwaysSafe, x.toNat < 0x80 ∧ x ≠ '%' := by decide
          exact hall c h
        · exact hsafe c h
      have s1 : uqStep ⟨toks, none⟩ c = ⟨Sum.inl c.toNat :: toks, none⟩ := by
        simp [uqStep, uqNormal, hascii.1, hascii.2]
      simp only [List.foldl_cons, List.foldl_nil, s1]
      rw [uq_run_quote safe hsafe cs (Sum.inl c.toNat :: toks)]
      have hech : utf8EncodeChar c.toNat = [c.toNat] := by
        unfold utf8EncodeChar
        rw [if_pos hascii.1]
      rw [hsplit, hech]
      simp
    · rw [if_neg hc]
      rw [uq_run_pct (utf8EncodeChar c.toNat) (utf8EncodeChar_bytes_lt _ (by omega)) toks]
      rw [uq_run_quote safe hsafe cs _]
      rw [hsplit]
      simp

theorem unquoteAssemble_inl : ∀ (bs : List Nat) (acc : List Nat),
    unquoteAssemble (bs.map Sum.inl) acc = utf8DecodeReplace (acc.reverse ++ bs)
  | [], acc => by simp [unquoteAssemble]
  | b :: rest, acc => by
    show unquoteAssemble (Sum.inl b :: rest.map Sum.inl) acc = _
    rw [show unquoteAssemble (Sum.inl b :: rest.map Sum.inl) acc
      = unquoteAssemble (rest.map Sum.inl) (b :: acc) from rfl]
    rw [unquoteAssemble_inl rest (b :: acc)]
    simp

theorem unquote_quote (safe : PyStr) (hsafe : ∀ c ∈ safe, c.toNat < 0x80 ∧ c ≠ '%')
    (s : PyStr) : unquote (quote safe s) = s := by
  unfold unquote unquoteTokens
  rw [uq_run_quote safe hsafe s []]
  rw [show uqFlush ⟨(utf8Encode s).reverse.map Sum.inl ++ [], none⟩
    = (utf8Encode s).reverse.map Sum.inl ++ [] from rfl]
  rw [List.append_nil, ← List.map_reverse, List.reverse_reverse]
  rw [unquoteAssemble_inl (utf8Encode s) []]
  exact utf8DecodeReplace_utf8Encode s

theorem map_id_of_fix {f : Char → Char} :
    ∀ s : PyStr, (∀ c ∈ s, f c = c) → s.map f = s
  | [], _ => rfl
  | c :: t, h => by
    simp only [List.map_cons, h c (by simp),
      map_id_of_fix t (fun x hx => h x (by simp [hx]))]

theorem quote_no_plus (safe : PyStr) (hplus : '+' ∉ safe) (s : PyStr) :
    '+' ∉ quote safe s := by
  intro hmem
  obtain ⟨c, _, hcm⟩ := List.mem_flatMap.mp hmem
  unfold quoteChar at hcm
  split at hcm
  · next hin =>
    simp only [List.mem_singleton] at hcm
    subst hcm
    rcases hin with h | h
    · exact absurd h (by decide)
    · exact hplus h
  · obtain ⟨b, _, hbm⟩ := List.mem_flatMap.mp hcm
    simp only [pctEncodeByte, List.mem_cons, List.not_mem_nil, or_false] at hbm
    rcases hbm with h | h | h
    · exact absurd h.symm (by decide)
    · exact hexUpperChar_ne_plus _ h.symm
    · exact hexUpperChar_ne_plus _ h.symm

theorem plusToSpace_spaceToPlus {s : PyStr} (h : '+' ∉ s) :
    plusToSpace (spaceToPlus s) = s := by
  unfold plusToSpace spaceToPlus
  rw [List.map_map]
  apply map_id_of_fix
  intro c hc
  by_cases h1 : c = ' '
  · simp [Function.comp, h1]
  · have h2 : c ≠ '+' := fun hcc => h (hcc ▸ hc)
    simp [Function.comp, h1, h2]

theorem unquote_plus_quote_plus (s : PyStr) : unquote_plus (quote_plus s) = s := by
  unfold quote_plus unquote_plus
  by_cases hsp : ' ' ∈ s
  · rw [if_pos hsp]
    rw [plusToSpace_spaceToPlus (quote_no_plus [' '] (by decide) s)]
    exact unquote_quote [' '] (by decide) s
  · rw [if_neg hsp]
    have hnp := quote_no_plus [] (by decide) s
    rw [show plusToSpace (quote [] s) = quote [] s from map_id_of_fix _ (by
      intro c hc
      have h2 : c ≠ '+' := fun hcc => hnp (hcc ▸ hc)
      simp [h2])]
    exact unquote_quote [] (by decide) s

theorem quoteChar_ne_nil (safe : PyStr) (c : Char) : quoteChar safe c ≠ [] := by
  unfold quoteChar
  split
  · simp
  · cases hE : utf8EncodeChar c.toNat with
    | nil => exact absurd hE (utf8EncodeChar_ne_nil c.toNat)
    | cons b t => simp [hE, pctEncodeByte]

theorem quote_ne_nil (safe : PyStr) {s : PyStr} (h : s ≠ []) : quote safe s ≠ [] := by
  cases s with
  | nil => exact absurd rfl h
  | cons c cs =>
    show quoteChar safe c ++ quote safe cs ≠ []
    simp [quoteChar_ne_nil]

theorem quote_plus_ne_nil {s : PyStr} (h : s ≠ []) : quote_plus s ≠ [] := by
  unfold quote_plus
  split
  · unfold spaceToPlus
    simp only [ne_eq, List.map_eq_nil_iff]
    exact quote_ne_nil [' '] h
  · exact quote_ne_nil [] h

/-- C2: for all non-empty text `x` (Unicode included) and each mode in
standard/plus, URL-decoding the URL-encoding of `x` in the same mode
returns `x`.  (The original claim quantified over all text; `encode`
rejects the empty string, see the separate counterexample.) -/
theorem C2_url_roundtrip (x : PyStr) (hx : x ≠ []) :
    (URLUtility.encode x "standard".toList).bind
        (fun e => (URLUtility.decode e.encoded "standard".toList).map (fun d => d.decoded))
      = .ok x
    ∧ (URLUtility.encode x "plus".toList).bind
        (fun e => (URLUtility.decode e.encoded "plus".toList).map (fun d => d.decoded))
      = .ok x := by
  constructor
  · unfold URLUtility.encode
    rw [if_neg hx]
    show (URLUtility.decode (quote ['/'] x) "standard".toList).map (fun d => d.decoded) = .ok x
    unfold URLUtility.decode
    rw [if_neg (quote_ne_nil ['/'] hx)]
    show Except.ok (unquote (quote ['/'] x)) = Except.ok x
    rw [unquote_quote ['/'] (by decide) x]
  · unfold URLUtility.encode
    rw [if_neg hx]
    show (URLUtility.decode (quote_plus x) "plus".toList).map (fun d => d.decoded) = .ok x
    unfold URLUtility.decode
    rw [if_neg (quote_plus_ne_nil hx)]
    show Except.ok (unquote_plus (quote_plus x)) = Except.ok x
    rw [unquote_plus_quote_plus x]

/-- C2 counterexample: at `x = ""` the claimed round-trip equation fails
in both modes because `encode` raises "Input text cannot be empty". -/
theorem C2_url_roundtrip_empty_cex :
    (URLUtility.encode [] "standard".toList).bind
        (fun e => (URLUtility.decode e.encoded "standard".toList).map (fun d => d.decoded))
      ≠ .ok ([] : PyStr)
    ∧ (URLUtility.encode [] "plus".toList).bind
        (fun e => (URLUtility.decode e.encoded "plus".toList).map (fun d => d.decoded))
      ≠ .ok ([] : PyStr)
    ∧ URLUtility.encode [] "standard".toList = .error "Input text cannot be empty".toList := by
  refine ⟨by decide, by decide, by decide⟩

/-- C2 witness: the round-trip theorem applied to a concrete string with
spaces, reserved characters, a literal plus and multi-byte characters. -/
theorem C2_url_roundtrip_witness :
    ("a b+c/é €?&=".toList ≠ ([] : PyStr))
    ∧ ((URLUtility.encode "a b+c/é €?&=".toList "standard".toList).bind
        (fun e => (URLUtility.decode e.encoded "standard".toList).map (fun d => d.decoded))
        = .ok "a b+c/é €?&=".toList
      ∧ (URLUtility.encode "a b+c/é €?&=".toList "plus".toList).bind
        (fun e => (URLUtility.decode e.encoded "plus".toList).map (fun d => d.decoded))
        = .ok "a b+c/é €?&=".toList) :=
  ⟨by decide, C2_url_roundtrip _ (by decide)⟩

/-! ## Password generator (`src/core/generators/password_generator.py`)

`secrets.choice(charset)` is modelled by an index oracle
`rng : Nat → Nat`: the `i`-th draw picks `charset[rng i % len(charset)]`,
so every possible sequence of choices corresponds to some oracle. -/

namespace PasswordGenerator

/-- Fixed character classes of the generator. -/
def UPPERCASE : PyStr := "ABCDEFGHIJKLMNOPQRSTUVWXYZ".toList

/-- Lowercase class. -/
def LOWERCASE : PyStr := "abcdefghijklmnopqrstuvwxyz".toList

/-- Digit class. -/
def NUMBERS : PyStr := "0123456789".toList

/-- Symbol class (the set of `PasswordGenerator.SYMBOLS`; the braces are
written as escapes). -/
def SYMBOLS : PyStr := "!@#$%^&*()_+-=[]\x7b\x7d|;:,.<>?".toList

/-- Ambiguous characters (`0O1lI|` backtick apostrophe), written via
character codes to keep the quoting readable. -/
def AMBIGUOUS_CHARS : PyStr := ['0', 'O', '1', 'l', 'I', '|', Char.ofNat 96, Char.ofNat 39]

/-- Concatenation of the enabled character classes (first step of
`_build_charset`). -/
def classChars (uppercase lowercase numbers symbols : Bool) : PyStr :=
  (if uppercase then UPPERCASE else []) ++ (if lowercase then LOWERCASE else [])
    ++ (if numbers then NUMBERS else []) ++ (if symbols then SYMBOLS else [])

/-- Charset after the optional ambiguous-character exclusion. -/
def appliedCharset (uppercase lowercase numbers symbols exclude_ambiguous : Bool) : PyStr :=
  if exclude_ambiguous then
    (classChars uppercase lowercase numbers symbols).filter
      (fun c => !(AMBIGUOUS_CHARS.contains c))
  else classChars uppercase lowercase numbers symbols

/-- Embedding of `PasswordGenerator._build_charset`. -/
def build_charset (uppercase lowercase numbers symbols exclude_ambiguous : Bool) :
    Except PyStr PyStr :=
  if appliedCharset uppercase lowercase numbers symbols exclude_ambiguous = [] then
    .error "At least one character type must be enabled".toList
  else .ok (appliedCharset uppercase lowercase numbers symbols exclude_ambiguous)

/-- Embedding of `PasswordGenerator._ensure_requirements` (the
`charset_config` dictionary collapses to the four class flags). -/
def ensure_requirements (password : PyStr)
    (uppercase lowercase numbers symbols : Bool) : Bool :=
  (!uppercase || password.any (fun c => UPPERCASE.contains c))
    && (!lowercase || password.any (fun c => LOWERCASE.contains c))
    && (!numbers || password.any (fun c => NUMBERS.contains c))
    && (!symbols || password.any (fun c => SYMBOLS.contains c))

/-- Result record of `generate_password` (the float entropy field is
omitted; `strength` classifies `length * log2(len(charset))` against the
thresholds 100/80/60/40, expressed by the exact equivalent power
comparison `len(charset)^length ≥ 2^threshold`). -/
structure Result where
  password : PyStr
  length : Nat
  charset_size : Nat
  strength : PyStr
  uppercase : Bool
  lowercase : Bool
  numbers : Bool
  symbols : Bool
  exclude_ambiguous : Bool
  deriving DecidableEq

/-- Strength label from `PasswordGenerator._assess_strength`. -/
def assess_strength (charset_size length : Nat) : PyStr :=
  if charset_size ^ length ≥ 2 ^ 100 then "very_strong".toList
  else if charset_size ^ length ≥ 2 ^ 80 then "strong".toList
  else if charset_size ^ length ≥ 2 ^ 60 then "moderate".toList
  else if charset_size ^ length ≥ 2 ^ 40 then "weak".toList
  else "very_weak".toList

/-- One candidate draw: `length` characters chosen by the oracle from the
charset (attempt number `k`). -/
def attemptDraw (rng : Nat → Nat) (charset : PyStr) (length k : Nat) : PyStr :=
  (List.range length).map (fun i => charset.getD (rng (k * length + i) % charset.length) 'A')

/-- The retry loop of `generate_password` (`for attempt in range(100)`),
`fuel` counting the remaining attempts and `k` the current attempt
index. -/
def genLoop (rng : Nat → Nat) (charset : PyStr) (length : Nat)
    (uppercase lowercase numbers symbols exclude_ambiguous ensure : Bool) :
    Nat → Nat → Except PyStr Result
  | 0, _ => .error "Failed to generate password meeting requirements after 100 attempts".toList
  | fuel + 1, k =>
    let password := attemptDraw rng charset length k
    if !ensure || ensure_requirements password uppercase lowercase numbers symbols then
      .ok { password := password, length := length, charset_size := charset.length,
            strength := assess_strength charset.length length,
            uppercase := uppercase, lowercase := lowercase, numbers := numbers,
            symbols := symbols, exclude_ambiguous := exclude_ambiguous }
    else
      genLoop rng charset length uppercase lowercase numbers symbols exclude_ambiguous ensure
        fuel (k + 1)

/-- Embedding of `PasswordGenerator.generate_password`. -/
def generate_password (rng : Nat → Nat) (length : Nat)
    (uppercase lowercase numbers symbols exclude_ambiguous ensure_requirements : Bool) :
    Except PyStr Result :=
  if length < 8 ∨ 128 < length then
    .error "Password length must be between 8 and 128 characters".toList
  else
    match build_charset uppercase lowercase numbers symbols exclude_ambiguous with
    | .error e => .error e
    | .ok charset =>
      genLoop rng charset length uppercase lowercase numbers symbols exclude_ambiguous
        ensure_requirements 100 0

end PasswordGenerator

/-- Success test for an `Except` value. -/
def isOkE {α β : Type} : Except α β → Bool
  | .ok _ => true
  | .error _ => false

namespace PasswordGenerator

theorem ensure_requirements_spec (pw : PyStr) (u l n s : Bool)
    (h : ensure_requirements pw u l n s = true) :
    (u = true → ∃ c ∈ pw, c ∈ UPPERCASE)
    ∧ (l = true → ∃ c ∈ pw, c ∈ LOWERCASE)
    ∧ (n = true → ∃ c ∈ pw, c ∈ NUMBERS)
    ∧ (s = true → ∃ c ∈ pw, c ∈ SYMBOLS) := by
  unfold ensure_requirements at h
  simp only [Bool.and_eq_true, Bool.or_eq_true, Bool.not_eq_true', List.any_eq_true] at h
  obtain ⟨⟨⟨hu, hl⟩, hn⟩, hs⟩ := h
  refine ⟨?_, ?_, ?_, ?_⟩ <;> intro hflag
  · rcases hu with h | ⟨c, hc, he⟩
    · exact absurd hflag (by simp [h])
    · exact ⟨c, hc, List.mem_of_elem_eq_true he⟩
  · rcases hl with h | ⟨c, hc, he⟩
    · exact absurd hflag (by simp [h])
    · exact ⟨c, hc, List.mem_of_elem_eq_true he⟩
  · rcases hn with h | ⟨c, hc, he⟩
    · exact absurd hflag (by simp [h])
    · exact ⟨c, hc, List.mem_of_elem_eq_true he⟩
  · rcases hs with h | ⟨c, hc, he⟩
    · exact absurd hflag (by simp [h])
    · exact ⟨c, hc, List.mem_of_elem_eq_true he⟩

theorem attemptDraw_length (rng : Nat → Nat) (charset : PyStr) (length k : Nat) :
    (attemptDraw rng charset length k).length = length := by
  simp [attemptDraw]

theorem genLoop_ok (rng : Nat → Nat) (charset : PyStr) (length : Nat)
    (u l n s ea ensure : Bool) :
    ∀ fuel k r, genLoop rng charset length u l n s ea ensure fuel k = .ok r →
      r.password.length = length
      ∧ (ensure = true → ensure_requirements r.password u l n s = true)
  | 0, k, r, h => by simp [genLoop] at h
  | fuel + 1, k, r, h => by
    simp only [genLoop] at h
    split at h
    · next hcond =>
      obtain rfl : r = _ := (Except.ok.injEq _ _).mp h.symm
      refine ⟨attemptDraw_length rng charset length k, ?_⟩
      intro he
      subst he
      simpa using hcond
    · exact genLoop_ok rng charset length u l n s ea ensure fuel (k + 1) r h

theorem genLoop_error (rng : Nat → Nat) (charset : PyStr) (length : Nat)
    (u l n s ea : Bool) :
    ∀ fuel k e, genLoop rng charset length u l n s ea true fuel k = .error e →
      e = "Failed to generate password meeting requirements after 100 attempts".toList
      ∧ ∀ j < fuel, ensure_requirements (attemptDraw rng charset length (k + j)) u l n s
          = false
  | 0, k, e, h => by
    simp only [genLoop] at h
    exact ⟨((Except.error.injEq _ _).mp h).symm, by omega⟩
  | fuel + 1, k, e, h => by
    simp only [genLoop] at h
    split at h
    · exact absurd h (by simp)
    · next hcond =>
      obtain ⟨he, hall⟩ := genLoop_error rng charset length u l n s ea fuel (k + 1) e h
      refine ⟨he, ?_⟩
      intro j hj
      rcases Nat.eq_zero_or_pos j with rfl | hpos
      · simpa using hcond
      · have := hall (j - 1) (by omega)
        have harg : k + 1 + (j - 1) = k + j := by omega
        rw [harg] at this
        exact this

theorem build_charset_ok (u l n s ea : Bool) (h : (u || l || n || s) = true) :
    ∃ cs, build_charset u l n s ea = .ok cs := by
  cases u <;> cases l <;> cases n <;> cases s <;> cases ea <;>
    first
      | exact absurd h (by decide)
      | exact ⟨_, rfl⟩

end PasswordGenerator

/-- C3 (amended with "at least one character class enabled"): every such
call of `generate_password` with `length` in `[8,128]` and
`ensure_requirements=true` either returns a password of exactly `length`
characters containing at least one character from every enabled class
(symbols included), or fails with the generation-exhausted error after
its 100 attempts all miss a requirement; it never returns a violating
password and never fails with any other error. -/
theorem C3_generate_password_spec (rng : Nat → Nat) (length : Nat) (u l n s ea : Bool)
    (h8 : 8 ≤ length) (h128 : length ≤ 128) (hcls : (u || l || n || s) = true) :
    (∀ r, PasswordGenerator.generate_password rng length u l n s ea true = .ok r →
      r.password.length = length
      ∧ (u = true → ∃ c ∈ r.password, c ∈ PasswordGenerator.UPPERCASE)
      ∧ (l = true → ∃ c ∈ r.password, c ∈ PasswordGenerator.LOWERCASE)
      ∧ (n = true → ∃ c ∈ r.password, c ∈ PasswordGenerator.NUMBERS)
      ∧ (s = true → ∃ c ∈ r.password, c ∈ PasswordGenerator.SYMBOLS))
    ∧ (∀ e, PasswordGenerator.generate_password rng length u l n s ea true = .error e →
      e = "Failed to generate password meeting requirements after 100 attempts".toList
      ∧ ∀ cs, PasswordGenerator.build_charset u l n s ea = .ok cs →
          ∀ j < 100, PasswordGenerator.ensure_requirements
            (PasswordGenerator.attemptDraw rng cs length j) u l n s = false) := by
  obtain ⟨cs, hcs⟩ := PasswordGenerator.build_charset_ok u l n s ea hcls
  constructor
  · intro r hr
    unfold PasswordGenerator.generate_password at hr
    rw [if_neg (by omega), hcs] at hr
    obtain ⟨hlen, hreq⟩ :=
      PasswordGenerator.genLoop_ok rng cs length u l n s ea true 100 0 r hr
    obtain ⟨c1, c2, c3, c4⟩ :=
      PasswordGenerator.ensure_requirements_spec r.password u l n s (hreq rfl)
    exact ⟨hlen, c1, c2, c3, c4⟩
  · intro e he
    unfold PasswordGenerator.generate_password at he
    rw [if_neg (by omega), hcs] at he
    obtain ⟨hmsg, hall⟩ :=
      PasswordGenerator.genLoop_error rng cs length u l n s ea 100 0 e he
    refine ⟨hmsg, ?_⟩
    intro cs2 hcs2 j hj
    rw [hcs] at hcs2
    obtain rfl : cs = cs2 := (Except.ok.injEq _ _).mp hcs2
    simpa using hall j hj

/-- C3 counterexample: with every character class disabled (but length in
range and `ensure_requirements=true`) the call fails with the charset
validation error, which is neither a returned password nor the
generation-exhausted error claimed as the only failure. -/
theorem C3_generate_password_no_class_cex :
    PasswordGenerator.generate_password (fun _ => 0) 16 false false false false false true
      = .error "At least one character type must be enabled".toList
    ∧ "At least one character type must be enabled".toList
      ≠ "Failed to generate password meeting requirements after 100 attempts".toList := by
  exact ⟨by decide, by decide⟩

/-- C3 witness: a concrete oracle whose first draw of 20 characters with
all four classes enabled meets every requirement; the call succeeds, and
the specification theorem applies at this input. -/
theorem C3_generate_password_witness :
    (isOkE (PasswordGenerator.generate_password (fun i => 5 * i) 20 true true true true
        false true) = true)
    ∧ ((∀ r, PasswordGenerator.generate_password (fun i => 5 * i) 20 true true true true
        false true = .ok r →
        r.password.length = 20
        ∧ (true = true → ∃ c ∈ r.password, c ∈ PasswordGenerator.UPPERCASE)
        ∧ (true = true → ∃ c ∈ r.password, c ∈ PasswordGenerator.LOWERCASE)
        ∧ (true = true → ∃ c ∈ r.password, c ∈ PasswordGenerator.NUMBERS)
        ∧ (true = true → ∃ c ∈ r.password, c ∈ PasswordGenerator.SYMBOLS))
      ∧ (∀ e, PasswordGenerator.generate_password (fun i => 5 * i) 20 true true true true
          false true = .error e →
        e = "Failed to generate password meeting requirements after 100 attempts".toList
        ∧ ∀ cs, PasswordGenerator.build_charset true true true true false = .ok cs →
            ∀ j < 100, PasswordGenerator.ensure_requirements
              (PasswordGenerator.attemptDraw (fun i => 5 * i) cs 20 j) true true true true
              = false)) :=
  ⟨by decide,
    C3_generate_password_spec (fun i => 5 * i) 20 true true true true false
      (by decide) (by decide) (by decide)⟩

/-! ## API-key generator (`src/core/generators/apikey_generator.py`)

`secrets.token_bytes` is modelled by a byte oracle
`rndBytes : Nat → List Nat` (argument: requested count) and
`secrets.choice` by an index oracle as for passwords.  Lengths are
embedded as `Nat`, so the `length <= 0` guard of the source becomes
`length = 0`.  The float entropy field is omitted; the security label
compares `length * log2(alphabet)` against the thresholds 256/128/80/64
through the exact power comparison `alphabet^length ≥ 2^threshold`. -/

namespace APIKeyGenerator

/-- Lowercase hex digit. -/
def hexLowerChar (v : Nat) : Char := "0123456789abcdef".toList.getD v '0'

/-- Embedding of `generate_hex` (`secrets.token_hex`). -/
def generate_hex (rndBytes : Nat → List Nat) (length : Nat) : Except PyStr PyStr :=
  if length = 0 ∨ 128 < length then .error "Length must be between 1 and 128 bytes".toList
  else .ok ((rndBytes length).flatMap (fun b => [hexLowerChar (b / 16), hexLowerChar (b % 16)]))

/-- Embedding of `generate_base64` (`secrets.token_urlsafe`: URL-safe
Base64 of the drawn bytes with the `=` padding stripped; on encoder
output the trailing strip equals a filter). -/
def generate_base64 (rndBytes : Nat → List Nat) (length : Nat) : Except PyStr PyStr :=
  if length = 0 ∨ 128 < length then .error "Length must be between 1 and 128 bytes".toList
  else .ok (((b64encodeBytes (rndBytes length)).filter (fun c => c ≠ '=')).map
      (fun c => if c = '+' then '-' else if c = '/' then '_' else c))

/-- The Bitcoin-style Base58 alphabet of the source (excludes `0OIl`). -/
def base58_alphabet : PyStr :=
  "123456789ABCDEFGHJKLMNPQRSTUVWXYZabcdefghijkmnopqrstuvwxyz".toList

/-- Big-endian byte-list value (`int.from_bytes(random_bytes, 'big')`). -/
def bytesToNat (bs : List Nat) : Nat := bs.foldl (fun acc b => acc * 256 + b) 0

/-- Fuelled form of the `while num > 0` division loop of
`generate_base58`; `b58digits` supplies sufficient fuel. -/
def b58loop : Nat → Nat → PyStr
  | _, 0 => []
  | 0, _ + 1 => []
  | f + 1, n + 1 => b58loop f ((n + 1) / 58) ++ [base58_alphabet.getD ((n + 1) % 58) '1']

/-- Base-58 digit string of a number (most significant digit first, empty
for zero), as produced by the source's division loop. -/
def b58digits (n : Nat) : PyStr := b58loop n n

/-- Embedding of `generate_base58`. -/
def generate_base58 (rndBytes : Nat → List Nat) (length : Nat) : Except PyStr PyStr :=
  if length = 0 ∨ 128 < length then .error "Length must be between 1 and 128 bytes".toList
  else
    let random_bytes := rndBytes length
    let leading_zeros := (random_bytes.takeWhile (fun b => b = 0)).length
    .ok (List.replicate leading_zeros '1' ++ b58digits (bytesToNat random_bytes))

/-- Default charset of `generate_custom`
(`string.ascii_letters + string.digits`). -/
def defaultCharset : PyStr :=
  "abcdefghijklmnopqrstuvwxyzABCDEFGHIJKLMNOPQRSTUVWXYZ0123456789".toList

/-- Embedding of `generate_custom`. -/
def generate_custom (rng : Nat → Nat) (length : Nat) (charset : Option PyStr) :
    Except PyStr PyStr :=
  let cs := charset.getD defaultCharset
  if length = 0 ∨ 256 < length then
    .error "Length must be between 1 and 256 characters".toList
  else if cs.length < 2 then .error "Charset must contain at least 2 characters".toList
  else .ok ((List.range length).map (fun i => cs.getD (rng i % cs.length) 'A'))

/-- Exact counterpart of the float comparison
`length * log2(base) ≥ threshold` used for the security label. -/
def entropyAtLeast (key_format : PyStr) (length csLen T : Nat) : Bool :=
  if key_format = "hex".toList then decide (length * 4 ≥ T)
  else if key_format = "base64".toList then decide (length * 6 ≥ T)
  else if key_format = "base58".toList then decide (58 ^ length ≥ 2 ^ T)
  else decide (csLen ^ length ≥ 2 ^ T)

/-- Embedding of `_assess_security`. -/
def assess_security (key_format : PyStr) (length csLen : Nat) : PyStr :=
  if entropyAtLeast key_format length csLen 256 then "military_grade".toList
  else if entropyAtLeast key_format length csLen 128 then "very_strong".toList
  else if entropyAtLeast key_format length csLen 80 then "strong".toList
  else if entropyAtLeast key_format length csLen 64 then "adequate".toList
  else "weak".toList

/-- Result record of `APIKeyGenerator.generate` (the `prefix` field is
called `pfx` here; float entropy omitted). -/
structure GenResult where
  api_key : PyStr
  format : PyStr
  length : Nat
  total_length : Nat
  pfx : PyStr
  security_level : PyStr
  deriving DecidableEq

/-- Embedding of `APIKeyGenerator.generate`.  The entropy line
`length * math.log2(len(charset or ""))` of the source raises
`ValueError: math domain error` when the format is custom and the
caller-level `charset` is `None` (or empty), because it consults the
original argument rather than the defaulted charset used for
generation. -/
def generate (rndBytes : Nat → List Nat) (rng : Nat → Nat) (key_format : PyStr)
    (length : Nat) (pfx : PyStr) (charset : Option PyStr) : Except PyStr GenResult :=
  if pfx ≠ [] ∧ 20 < pfx.length then .error "Prefix cannot exceed 20 characters".toList
  else
    (if key_format = "hex".toList then generate_hex rndBytes length
     else if key_format = "base64".toList then generate_base64 rndBytes length
     else if key_format = "base58".toList then generate_base58 rndBytes length
     else if key_format = "custom".toList then generate_custom rng length charset
     else .error ("Invalid format: ".toList ++ key_format)).bind fun key =>
      if key_format ≠ "hex".toList ∧ key_format ≠ "base64".toList
          ∧ key_format ≠ "base58".toList ∧ (charset.getD []).length = 0 then
        .error "math domain error".toList
      else
        let final_key := pfx ++ key
        .ok { api_key := final_key, format := key_format, length := key.length,
              total_length := final_key.length, pfx := pfx,
              security_level := assess_security key_format length (charset.getD []).length }

end APIKeyGenerator

example : APIKeyGenerator.generate_base58 (fun _ => [0, 255]) 2 = .ok "15Q".toList := by decide

example : APIKeyGenerator.generate (fun n => List.replicate n 7) (fun i => i) "hex".toList 4
      [] none
    = .ok ⟨"07070707".toList, "hex".toList, 8, 8, [], "weak".toList⟩ := by decide

example : APIKeyGenerator.generate (fun n => List.replicate n 7) (fun i => i) "custom".toList
      4 [] none = .error "math domain error".toList := by decide

theorem getD_mod_mem {l : PyStr} (i : Nat) (d : Char) (h : l ≠ []) :
    l.getD (i % l.length) d ∈ l := by
  have hpos : 0 < l.length := List.length_pos.mpr h
  have hlt : i % l.length < l.length := Nat.mod_lt _ hpos
  rw [List.getD_eq_getElem l d hlt]
  exact List.getElem_mem hlt

/-- C4: calling `APIKeyGenerator.generate` with `key_format="custom"` and
the charset argument omitted does NOT succeed, contrary to the claim: the
generation step itself succeeds with the default alphanumeric charset,
but the entropy line `length * math.log2(len(charset or ""))` consults
the original `None` argument and raises `ValueError: math domain error`
for every length in `[1, 256]`. -/
theorem C4_generate_custom_default_crash (rndBytes : Nat → List Nat) (rng : Nat → Nat)
    (length : Nat) (h1 : 1 ≤ length) (h2 : length ≤ 256) :
    APIKeyGenerator.generate rndBytes rng "custom".toList length [] none
      = .error "math domain error".toList
    ∧ isOkE (APIKeyGenerator.generate_custom rng length none) = true := by
  constructor
  · unfold APIKeyGenerator.generate APIKeyGenerator.generate_custom
    rw [if_neg (show ¬(length = 0 ∨ 256 < length) from by omega)]
    rfl
  · unfold APIKeyGenerator.generate_custom
    rw [if_neg (show ¬(length = 0 ∨ 256 < length) from by omega)]
    rfl

/-- C4 witness: the crash theorem applied at length 32 with concrete
oracles. -/
theorem C4_generate_custom_default_crash_witness :
    (1 ≤ 32 ∧ 32 ≤ 256)
    ∧ (APIKeyGenerator.generate (fun n => List.replicate n 7) (fun i => i) "custom".toList
          32 [] none = .error "math domain error".toList
      ∧ isOkE (APIKeyGenerator.generate_custom (fun i => i) 32 none) = true) :=
  ⟨by decide, C4_generate_custom_default_crash (fun n => List.replicate n 7) (fun i => i) 32
    (by decide) (by decide)⟩

namespace APIKeyGenerator

theorem b58loop_irrel : ∀ f g n, n ≤ f → n ≤ g → b58loop f n = b58loop g n := by
  intro f
  induction f with
  | zero =>
    intro g n hf _
    have : n = 0 := by omega
    subst this
    cases g <;> rfl
  | succ f ih =>
    intro g n hf hg
    cases n with
    | zero => cases g <;> rfl
    | succ m =>
      cases g with
      | zero => omega
      | succ g2 =>
        show b58loop f ((m + 1) / 58) ++ _ = b58loop g2 ((m + 1) / 58) ++ _
        rw [ih g2 ((m + 1) / 58) (by omega) (by omega)]

theorem b58digits_eq (n : Nat) (h : n ≠ 0) :
    b58digits n = b58digits (n / 58) ++ [base58_alphabet.getD (n % 58) '1'] := by
  obtain ⟨m, rfl⟩ : ∃ m, n = m + 1 := ⟨n - 1, by omega⟩
  show b58loop m ((m + 1) / 58) ++ _ = _
  rw [b58loop_irrel m ((m + 1) / 58) ((m + 1) / 58) (by omega) (Nat.le_refl _)]
  rfl

theorem b58alphabet_getD_mem (v : Nat) : base58_alphabet.getD v '1' ∈ base58_alphabet := by
  by_cases h : v < 58
  · have hall : ∀ w, w < 58 → base58_alphabet.getD w '1' ∈ base58_alphabet := by decide
    exact hall v h
  · rw [List.getD_eq_default]
    · decide
    · have : base58_alphabet.length = 58 := by decide
      omega

theorem b58digits_mem (n : Nat) : ∀ c ∈ b58digits n, c ∈ base58_alphabet := by
  induction n using Nat.strong_induction_on with
  | _ n ih =>
    by_cases h : n = 0
    · subst h
      intro c hc
      exact absurd hc (List.not_mem_nil c)
    · rw [b58digits_eq n h]
      intro c hc
      rcases List.mem_append.mp hc with hm | hm
      · exact ih (n / 58) (by omega) c hm
      · simp only [List.mem_singleton] at hm
        subst hm
        exact b58alphabet_getD_mem _

theorem b58digits_head (n : Nat) (h : 0 < n) :
    ∃ d rest, b58digits n = d :: rest ∧ d ≠ '1' := by
  induction n using Nat.strong_induction_on with
  | _ n ih =>
    by_cases h58 : n / 58 = 0
    · have hn58 : n < 58 := by omega
      rw [b58digits_eq n (by omega), h58]
      refine ⟨base58_alphabet.getD (n % 58) '1', [], by rfl, ?_⟩
      have : ∀ v, 1 ≤ v → v < 58 → base58_alphabet.getD v '1' ≠ '1' := by decide
      exact this (n % 58) (by omega) (by omega)
    · obtain ⟨d, rest, hd, hne⟩ := ih (n / 58) (by omega) (by omega)
      rw [b58digits_eq n (by omega), hd]
      exact ⟨d, rest ++ [base58_alphabet.getD (n % 58) '1'], by simp, hne⟩

end APIKeyGenerator

theorem takeWhile_all_true {p : Char → Bool} :
    ∀ l : PyStr, (∀ c ∈ l, p c = true) → l.takeWhile p = l
  | [], _ => rfl
  | c :: t, h => by
    simp only [List.takeWhile_cons, h c (by simp), if_true]
    rw [takeWhile_all_true t (fun x hx => h x (by simp [hx]))]

/-- C5: for every length in `[1,128]` and every draw of bytes,
`generate_base58` returns the string made of one `'1'` per leading zero
byte followed by the base-58 big-integer digits of the byte value; all
characters lie in the 58-character Bitcoin-style alphabet, the leading
`'1'`-run length equals the leading-zero-byte count exactly, and the most
significant digit is nonzero (so not `'1'`) whenever the value is
nonzero. -/
theorem C5_generate_base58_spec (rndBytes : Nat → List Nat) (length : Nat)
    (h1 : 1 ≤ length) (h2 : length ≤ 128) :
    APIKeyGenerator.generate_base58 rndBytes length
      = .ok (List.replicate ((rndBytes length).takeWhile (fun b => b = 0)).length '1'
          ++ APIKeyGenerator.b58digits (APIKeyGenerator.bytesToNat (rndBytes length)))
    ∧ (∀ c ∈ List.replicate ((rndBytes length).takeWhile (fun b => b = 0)).length '1'
          ++ APIKeyGenerator.b58digits (APIKeyGenerator.bytesToNat (rndBytes length)),
        c ∈ APIKeyGenerator.base58_alphabet)
    ∧ ((List.replicate ((rndBytes length).takeWhile (fun b => b = 0)).length '1'
          ++ APIKeyGenerator.b58digits
            (APIKeyGenerator.bytesToNat (rndBytes length))).takeWhile
          (fun c => c = '1')).length
        = ((rndBytes length).takeWhile (fun b => b = 0)).length
    ∧ (0 < APIKeyGenerator.bytesToNat (rndBytes length) →
        ∃ d rest, APIKeyGenerator.b58digits (APIKeyGenerator.bytesToNat (rndBytes length))
          = d :: rest ∧ d ≠ '1') := by
  refine ⟨?_, ?_, ?_, fun hpos => APIKeyGenerator.b58digits_head _ hpos⟩
  · unfold APIKeyGenerator.generate_base58
    rw [if_neg (show ¬(length = 0 ∨ 128 < length) from by omega)]
  · intro c hc
    rcases List.mem_append.mp hc with hm | hm
    · rw [List.eq_of_mem_replicate hm]
      decide
    · exact APIKeyGenerator.b58digits_mem _ c hm
  · have hrepl : ∀ x ∈ List.replicate
        ((rndBytes length).takeWhile (fun b => b = 0)).length '1',
        (fun c => decide (c = '1')) x = true := by
      intro x hx
      rw [List.eq_of_mem_replicate hx]
      decide
    by_cases hz : APIKeyGenerator.bytesToNat (rndBytes length) = 0
    · rw [hz]
      rw [show APIKeyGenerator.b58digits 0 = [] from rfl, List.append_nil]
      rw [takeWhile_all_true _ hrepl, List.length_replicate]
    · obtain ⟨d, rest, hd, hne⟩ :=
        APIKeyGenerator.b58digits_head _ (Nat.pos_of_ne_zero hz)
      rw [hd]
      rw [takeWhile_append_stop _ d rest hrepl (by simp [hne])]
      exact List.length_replicate _ _

/-- C5 witness: a two-byte draw `[0, 255]` produces `"15Q"`: one leading
`'1'` for the zero byte, then the base-58 digits `5`, `Q` of 255. -/
theorem C5_generate_base58_witness :
    (1 ≤ 2 ∧ 2 ≤ 128)
    ∧ (APIKeyGenerator.generate_base58 (fun _ => [0, 255]) 2 = .ok "15Q".toList
      ∧ (∀ c ∈ ("15Q".toList : PyStr), c ∈ APIKeyGenerator.base58_alphabet)
      ∧ (("15Q".toList : PyStr).takeWhile (fun c => c = '1')).length = 1
      ∧ (0 < APIKeyGenerator.bytesToNat [0, 255] →
          ∃ d rest, APIKeyGenerator.b58digits (APIKeyGenerator.bytesToNat [0, 255])
            = d :: rest ∧ d ≠ '1')) :=
  ⟨by decide, C5_generate_base58_spec (fun _ => [0, 255]) 2 (by decide) (by decide)⟩

namespace PasswordGenerator

theorem build_charset_exclude (u l n s : Bool) (cs : PyStr)
    (h : build_charset u l n s true = .ok cs) :
    cs ≠ [] ∧ ∀ c ∈ cs, AMBIGUOUS_CHARS.contains c = false := by
  unfold build_charset at h
  split at h
  · exact absurd h (by simp)
  · next hne =>
    obtain rfl : _ = cs := (Except.ok.injEq _ _).mp h
    refine ⟨hne, ?_⟩
    intro c hc
    rw [show appliedCharset u l n s true
      = (classChars u l n s).filter (fun c => !(AMBIGUOUS_CHARS.contains c)) from rfl] at hc
    have := (List.mem_filter.mp hc).2
    simpa using this

theorem genLoop_ok_chars (rng : Nat → Nat) (charset : PyStr) (length : Nat)
    (u l n s ea ensure : Bool) (hcs : charset ≠ []) :
    ∀ fuel k r, genLoop rng charset length u l n s ea ensure fuel k = .ok r →
      ∀ c ∈ r.password, c ∈ charset
  | 0, k, r, h => by simp [genLoop] at h
  | fuel + 1, k, r, h => by
    simp only [genLoop] at h
    split at h
    · obtain rfl : r = _ := (Except.ok.injEq _ _).mp h.symm
      intro c hc
      simp only [attemptDraw, List.mem_map, List.mem_range] at hc
      obtain ⟨i, _, rfl⟩ := hc
      exact getD_mod_mem _ 'A' hcs
    · exact genLoop_ok_chars rng charset length u l n s ea ensure hcs fuel (k + 1) r h

end PasswordGenerator

/-- C6 (amended): passwords generated with `exclude_ambiguous=true` never
contain `0`, `O`, `1`, `I` or `l`; base58 API keys never contain `0`,
`O`, `I` or `l` — but, contrary to the original claim, a base58 key can
contain `'1'`, since `'1'` is the first character of the Bitcoin-style
alphabet and is also used to encode leading zero bytes. -/
theorem C6_no_ambiguous_chars (rng : Nat → Nat) (rndBytes : Nat → List Nat)
    (plen klen : Nat) (u l n s er : Bool) :
    (∀ r, PasswordGenerator.generate_password rng plen u l n s true er = .ok r →
      ∀ c ∈ r.password, c ∉ (['0', 'O', '1', 'I', 'l'] : PyStr))
    ∧ (∀ sk, APIKeyGenerator.generate_base58 rndBytes klen = .ok sk →
      ∀ c ∈ sk, c ∉ (['0', 'O', 'I', 'l'] : PyStr)) := by
  constructor
  · intro r hr c hc
    unfold PasswordGenerator.generate_password at hr
    split at hr
    · exact absurd hr (by simp)
    · split at hr
      · exact absurd hr (by simp)
      · next cs hcs =>
        obtain ⟨hne, hnoamb⟩ := PasswordGenerator.build_charset_exclude u l n s cs hcs
        have hmem := PasswordGenerator.genLoop_ok_chars rng cs plen u l n s true er hne
          100 0 r hr c hc
        have hcontains := hnoamb c hmem
        intro hforb
        have : PasswordGenerator.AMBIGUOUS_CHARS.contains c = true := by
          fin_cases hforb <;> decide
        rw [this] at hcontains
        exact absurd hcontains (by simp)
  · intro sk hsk c hc
    unfold APIKeyGenerator.generate_base58 at hsk
    split at hsk
    · exact absurd hsk (by simp)
    · obtain rfl : _ = sk := (Except.ok.injEq _ _).mp hsk
      rcases List.mem_append.mp hc with hm | hm
      · rw [List.eq_of_mem_replicate hm]
        decide
      · have := APIKeyGenerator.b58digits_mem _ c hm
        have hall : ∀ x ∈ APIKeyGenerator.base58_alphabet,
            x ∉ (['0', 'O', 'I', 'l'] : PyStr) := by decide
        exact hall c this

/-- C6 counterexample: the single zero byte encodes to the base58 key
`"1"`, so a base58-format API key can contain the character `1`,
contradicting the claim that the output never contains `0`, `O`, `1`,
`I`, `l`. -/
theorem C6_base58_contains_one_cex :
    APIKeyGenerator.generate_base58 (fun _ => [0]) 1 = .ok ['1']
    ∧ '1' ∈ (['1'] : PyStr)
    ∧ '1' ∈ (['0', 'O', '1', 'I', 'l'] : PyStr) := by
  refine ⟨by decide, by decide, by decide⟩

/-- C6 witness: the exclusion theorem applied to a concrete password
draw (all classes, ambiguous excluded) and to the base58 key `"1"`. -/
theorem C6_no_ambiguous_chars_witness :
    (∀ c ∈ ("AFLRWbgmrw38$(=;>DJP".toList : PyStr),
      c ∉ (['0', 'O', '1', 'I', 'l'] : PyStr))
    ∧ (∀ c ∈ (['1'] : PyStr), c ∉ (['0', 'O', 'I', 'l'] : PyStr)) :=
  ⟨(C6_no_ambiguous_chars (fun i => 5 * i) (fun _ => [0]) 20 1 true true true true true).1
      ⟨"AFLRWbgmrw38$(=;>DJP".toList, 20, 82, "very_strong".toList,
        true, true, true, true, true⟩ (by decide),
    (C6_no_ambiguous_chars (fun i => 5 * i) (fun _ => [0]) 20 1 true true true true true).2
      ['1'] (by decide)⟩

/-! ## Hash generator (`src/core/generators/hash_generator.py`)

The digest routines of `hashlib` are kept abstract: the embedding is
parametric in a family `digest : PyStr → PyStr → PyStr` mapping a
registry key and the input text to the (lowercase hex) digest string, as
no claim depends on a concrete digest value.  The registry keys and the
dispatch, normalisation and error logic are embedded from the source. -/

/-- Python `dict` lookup for an association list built by repeated
assignment (later bindings win). -/
def dictGet {α : Type} : List (PyStr × α) → PyStr → Option α
  | [], _ => none
  | (k, v) :: rest, key =>
    match dictGet rest key with
    | some w => some w
    | none => if k = key then some v else none

namespace HashGenerator

/-- Keys of `SUPPORTED_ALGORITHMS`, in source order. -/
def SUPPORTED_ALGORITHMS : List PyStr :=
  ["md5".toList, "sha1".toList, "sha224".toList, "sha256".toList, "sha384".toList,
   "sha512".toList, "sha3_224".toList, "sha3_256".toList, "sha3_384".toList,
   "sha3_512".toList, "blake2b".toList, "blake2s".toList]

/-- `', '.join(names)`. -/
def joinComma : List PyStr → PyStr
  | [] => []
  | [x] => x
  | x :: y :: rest => x ++ ", ".toList ++ joinComma (y :: rest)

/-- Error message of `generate_hash` for an unknown algorithm. -/
def unsupportedMsg (a : PyStr) : PyStr :=
  "Unsupported algorithm: ".toList ++ a ++ ". Supported algorithms: ".toList
    ++ joinComma SUPPORTED_ALGORITHMS

/-- Result record of `generate_hash` (the constant `encoding` field is
omitted). -/
structure HashResult where
  hash : PyStr
  algorithm : PyStr
  input_text : PyStr
  input_length : Nat
  hash_length : Nat
  deriving DecidableEq

/-- Embedding of `HashGenerator.generate_hash` for string input (the
non-string `ValueError` is ruled out by typing). -/
def generate_hash (digest : PyStr → PyStr → PyStr) (text alg : PyStr) :
    Except PyStr HashResult :=
  let a := pyStrip (pyLower alg)
  if a ∈ SUPPORTED_ALGORITHMS then
    .ok { hash := digest a text, algorithm := a, input_text := text,
          input_length := text.length, hash_length := (digest a text).length }
  else .error (unsupportedMsg a)

/-- One entry of the `results` dictionary of `generate_multiple_hashes`:
either the hash with its length, or the captured per-algorithm error. -/
inductive HashEntry where
  | ok (hash : PyStr) (hash_length : Nat)
  | err (error : PyStr)
  deriving DecidableEq

/-- Entry computed for one requested algorithm name (the
`try/except ValueError` of the source). -/
def entryFor (digest : PyStr → PyStr → PyStr) (text a : PyStr) : HashEntry :=
  match generate_hash digest text a with
  | .ok r => .ok r.hash r.hash_length
  | .error e => .err e

/-- Result record of `generate_multiple_hashes`. -/
structure MultiResult where
  hashes : List (PyStr × HashEntry)
  input_text : PyStr
  input_length : Nat
  algorithms_used : List PyStr
  deriving DecidableEq

/-- Embedding of `HashGenerator.generate_multiple_hashes` (total: every
per-algorithm failure is captured inline). -/
def generate_multiple_hashes (digest : PyStr → PyStr → PyStr) (text : PyStr)
    (algorithms : List PyStr) : MultiResult :=
  { hashes := algorithms.map (fun a => (a, entryFor digest text a)),
    input_text := text, input_length := text.length, algorithms_used := algorithms }

end HashGenerator

theorem dictGet_map_none {α : Type} (f : PyStr → α) :
    ∀ (l : List PyStr) (key : PyStr), key ∉ l →
      dictGet (l.map fun a => (a, f a)) key = none
  | [], _, _ => rfl
  | a :: t, key, h => by
    show dictGet ((a, f a) :: t.map fun x => (x, f x)) key = none
    simp only [dictGet]
    rw [dictGet_map_none f t key (fun hm => h (by simp [hm]))]
    rw [if_neg (fun he => h (by simp [he]))]

theorem dictGet_map_self {α : Type} (f : PyStr → α) :
    ∀ (l : List PyStr) (key : PyStr), key ∈ l →
      dictGet (l.map fun a => (a, f a)) key = some (f key)
  | [], _, h => absurd h (List.not_mem_nil _)
  | a :: t, key, h => by
    show dictGet ((a, f a) :: t.map fun x => (x, f x)) key = some (f key)
    simp only [dictGet]
    by_cases hm : key ∈ t
    · rw [dictGet_map_self f t key hm]
    · rw [dictGet_map_none f t key hm]
      have : a = key := by
        rcases List.mem_cons.mp h with he | ht
        · exact he.symm
        · exact absurd ht hm
      subst this
      rw [if_pos rfl]

/-- C7: for every text, every requested algorithm list and every digest
family, `generate_multiple_hashes` returns (it is total, never raising)
a result whose dictionary maps each requested name to its own entry —
the hash and hash length when `generate_hash` succeeds on that name, the
captured error message when it fails — independently of every sibling
name in the request. -/
theorem C7_multiple_hashes_partial_failure (digest : PyStr → PyStr → PyStr)
    (text : PyStr) (algorithms : List PyStr) :
    ∀ a ∈ algorithms,
      dictGet (HashGenerator.generate_multiple_hashes digest text algorithms).hashes a
        = some (match HashGenerator.generate_hash digest text a with
                | .ok r => HashGenerator.HashEntry.ok r.hash r.hash_length
                | .error e => HashGenerator.HashEntry.err e) := by
  intro a ha
  show dictGet (algorithms.map fun x => (x, HashGenerator.entryFor digest text x)) a = _
  rw [dictGet_map_self (HashGenerator.entryFor digest text) algorithms a ha]
  rfl

/-- C7 witness: a request mixing one supported and one unknown name; the
unknown name yields an inline error entry and does not disturb the
supported sibling. -/
theorem C7_multiple_hashes_partial_failure_witness :
    dictGet (HashGenerator.generate_multiple_hashes (fun _ _ => "ab".toList) "x".toList
        ["sha256".toList, "bogus".toList]).hashes "sha256".toList
      = some (HashGenerator.HashEntry.ok "ab".toList 2)
    ∧ dictGet (HashGenerator.generate_multiple_hashes (fun _ _ => "ab".toList) "x".toList
        ["sha256".toList, "bogus".toList]).hashes "bogus".toList
      = some (HashGenerator.HashEntry.err (HashGenerator.unsupportedMsg "bogus".toList)) :=
  ⟨C7_multiple_hashes_partial_failure (fun _ _ => "ab".toList) "x".toList
      ["sha256".toList, "bogus".toList] "sha256".toList (by decide),
    C7_multiple_hashes_partial_failure (fun _ _ => "ab".toList) "x".toList
      ["sha256".toList, "bogus".toList] "bogus".toList (by decide)⟩

theorem isPrefixOf_append_self : ∀ (l r : PyStr), l.isPrefixOf (l ++ r) = true
  | [], _ => by simp [List.isPrefixOf]
  | c :: t, r => by
    show (c == c && t.isPrefixOf (t ++ r)) = true
    rw [isPrefixOf_append_self t r]
    simp

theorem containsSub_append_self : ∀ (pat rest : PyStr), containsSub pat (pat ++ rest) = true
  | [], rest => by cases rest <;> simp [containsSub]
  | c :: t, rest => by
    show (List.isPrefixOf (c :: t) (c :: t ++ rest) || _) = true
    rw [isPrefixOf_append_self (c :: t) rest]
    simp

theorem containsSub_append_right (pat : PyStr) :
    ∀ (l1 l2 : PyStr), containsSub pat l2 = true → containsSub pat (l1 ++ l2) = true
  | [], _, h => h
  | c :: t, l2, h => by
    show (List.isPrefixOf pat (c :: (t ++ l2)) || containsSub pat (t ++ l2)) = true
    rw [containsSub_append_right pat t l2 h]
    simp

theorem joinComma_contains :
    ∀ (names : List PyStr) (nm : PyStr), nm ∈ names →
      containsSub nm (HashGenerator.joinComma names) = true
  | [], _, h => absurd h (List.not_mem_nil _)
  | [x], nm, h => by
    obtain rfl : nm = x := by simpa using h
    have := containsSub_append_self nm []
    rwa [List.append_nil] at this
  | x :: y :: rest, nm, h => by
    show containsSub nm (x ++ ", ".toList ++ HashGenerator.joinComma (y :: rest)) = true
    rcases List.mem_cons.mp h with rfl | ht
    · rw [List.append_assoc]
      exact containsSub_append_self nm _
    · exact containsSub_append_right nm (x ++ ", ".toList) _
        (joinComma_contains (y :: rest) nm ht)

/-- C8 (amended: the registry keys use underscores, `sha3_224` etc., not
hyphens): `generate_hash` lower-cases and strips the algorithm name;
exactly when the normalized name lies outside the registry it fails with
the message that names every supported algorithm, and for every
registry name given in any letter case with surrounding whitespace it
succeeds, returning the digest of the text under the normalized name. -/
theorem C8_generate_hash_registry (digest : PyStr → PyStr → PyStr) (text alg : PyStr) :
    (pyStrip (pyLower alg) ∈ HashGenerator.SUPPORTED_ALGORITHMS →
      HashGenerator.generate_hash digest text alg
        = .ok { hash := digest (pyStrip (pyLower alg)) text,
                algorithm := pyStrip (pyLower alg), input_text := text,
                input_length := text.length,
                hash_length := (digest (pyStrip (pyLower alg)) text).length })
    ∧ (pyStrip (pyLower alg) ∉ HashGenerator.SUPPORTED_ALGORITHMS →
      HashGenerator.generate_hash digest text alg
        = .error (HashGenerator.unsupportedMsg (pyStrip (pyLower alg)))
      ∧ ∀ nm ∈ HashGenerator.SUPPORTED_ALGORITHMS,
          containsSub nm (HashGenerator.unsupportedMsg (pyStrip (pyLower alg))) = true) := by
  constructor
  · intro hmem
    unfold HashGenerator.generate_hash
    rw [if_pos hmem]
  · intro hmem
    refine ⟨?_, ?_⟩
    · unfold HashGenerator.generate_hash
      rw [if_neg hmem]
    · intro nm hnm
      unfold HashGenerator.unsupportedMsg
      exact containsSub_append_right nm _ _ (joinComma_contains _ nm hnm)

/-- C8 counterexample: the hyphenated name `sha3-224` of the claimed
registry is rejected by the code (whose registry key is `sha3_224`), so
the claim's "succeeds for registry names" direction fails for the
registry as the claim spells it. -/
theorem C8_hyphenated_name_cex :
    HashGenerator.generate_hash (fun _ _ => []) "a".toList "sha3-224".toList
      = .error (HashGenerator.unsupportedMsg "sha3-224".toList)
    ∧ HashGenerator.generate_hash (fun _ _ => []) "a".toList "sha3_224".toList
      = .ok ⟨[], "sha3_224".toList, "a".toList, 1, 0⟩ := by
  refine ⟨by decide, by decide⟩

/-- C8 witness: the registry theorem applied to a mixed-case name with
surrounding whitespace (success path with the digest returned) and to an
unknown name (error path, message listing every supported name). -/
theorem C8_generate_hash_registry_witness :
    (pyStrip (pyLower "  SHA3_256 ".toList) ∈ HashGenerator.SUPPORTED_ALGORITHMS
      → HashGenerator.generate_hash (fun _ _ => "cd".toList) "t".toList "  SHA3_256 ".toList
        = .ok { hash := "cd".toList, algorithm := pyStrip (pyLower "  SHA3_256 ".toList),
                input_text := "t".toList, input_length := 1, hash_length := 2 })
    ∧ (pyStrip (pyLower "md4".toList) ∉ HashGenerator.SUPPORTED_ALGORITHMS →
      HashGenerator.generate_hash (fun _ _ => "cd".toList) "t".toList "md4".toList
        = .error (HashGenerator.unsupportedMsg (pyStrip (pyLower "md4".toList)))
      ∧ ∀ nm ∈ HashGenerator.SUPPORTED_ALGORITHMS,
          containsSub nm (HashGenerator.unsupportedMsg (pyStrip (pyLower "md4".toList)))
            = true) :=
  ⟨(C8_generate_hash_registry (fun _ _ => "cd".toList) "t".toList "  SHA3_256 ".toList).1,
    (C8_generate_hash_registry (fun _ _ => "cd".toList) "t".toList "md4".toList).2⟩

/-! ## UUID generator (`src/core/generators/uuid_generator.py`)

`uuid.UUID(hex=...)` is embedded from CPython: the constructor deletes
every `urn:` and `uuid:` occurrence, strips `{`/`}` from both ends,
deletes hyphens, and requires exactly 32 hex digits (the exotic
`int(x, 16)` forms — `0x` prefix, underscores, inner whitespace — are
not modelled).  `str(uuid)` is the canonical lowercase 8-4-4-4-12 form
of the 128-bit value. -/

/-- Remove every occurrence of `urn:` (left to right, as `str.replace`). -/
def removeUrn : PyStr → PyStr
  | 'u' :: 'r' :: 'n' :: ':' :: rest => removeUrn rest
  | c :: rest => c :: removeUrn rest
  | [] => []

/-- Remove every occurrence of `uuid:`. -/
def removeUuidTag : PyStr → PyStr
  | 'u' :: 'u' :: 'i' :: 'd' :: ':' :: rest => removeUuidTag rest
  | c :: rest => c :: removeUuidTag rest
  | [] => []

/-- Curly brace test (written via escapes). -/
def pyIsBrace (c : Char) : Bool := c = '\x7b' || c = '\x7d'

/-- Python `s.strip('\x7b\x7d')`. -/
def stripBraces (s : PyStr) : PyStr :=
  ((s.dropWhile pyIsBrace).reverse.dropWhile pyIsBrace).reverse

/-- Parse a hex-digit string as a number (`int(x, 16)` on clean input). -/
def parseHexDigits (s : PyStr) : Option Nat :=
  s.foldl (fun acc c => acc.bind (fun v => (hexVal? c).map (fun d => v * 16 + d))) (some 0)

/-- Embedding of the `uuid.UUID(hex=...)` constructor; errors carry the
`ValueError` message captured by `validate_uuid`. -/
def uuidFromStringE (s : PyStr) : Except PyStr Nat :=
  let h := ((stripBraces (removeUuidTag (removeUrn s))).filter (fun c => c ≠ '-'))
  if h.length ≠ 32 then .error "badly formed hexadecimal UUID string".toList
  else match parseHexDigits h with
    | some n => .ok n
    | none => .error ("invalid literal for int() with base 16: ".toList
        ++ Char.ofNat 39 :: h ++ [Char.ofNat 39])

/-- Lowercase hex digit. -/
def toHexLower (v : Nat) : Char := "0123456789abcdef".toList.getD v '0'

/-- Fixed-width big-endian lowercase hex string. -/
def natToHexPad (w n : Nat) : PyStr :=
  (List.range w).map (fun i => toHexLower (n / 16 ^ (w - 1 - i) % 16))

/-- Canonical lowercase hyphenated form, `str(uuid.UUID(int=n))`. -/
def uuidCanonical (n : Nat) : PyStr :=
  let d := natToHexPad 32 n
  d.take 8 ++ '-' :: (d.drop 8).take 4 ++ '-' :: (d.drop 12).take 4
    ++ '-' :: (d.drop 16).take 4 ++ '-' :: d.drop 20

/-- Variant classification (`uuid.UUID.variant` through
`_get_uuid_variant`). -/
def uuidVariant (n : Nat) : PyStr :=
  if n &&& (0x8000 <<< 48) = 0 then "Reserved for NCS compatibility".toList
  else if n &&& (0x4000 <<< 48) = 0 then "RFC 4122 variant".toList
  else if n &&& (0x2000 <<< 48) = 0 then "Reserved for Microsoft compatibility".toList
  else "Reserved for future definition".toList

/-- `uuid.UUID.version`: defined only for RFC 4122 values. -/
def uuidVersion? (n : Nat) : Option Nat :=
  if ¬ n &&& (0x8000 <<< 48) = 0 ∧ n &&& (0x4000 <<< 48) = 0 then
    some ((n >>> 76) &&& 0xF)
  else none

/-- Decimal string of a version nibble (0–15). -/
def natToDec (v : Nat) : PyStr :=
  if v < 10 then [Char.ofNat (48 + v)]
  else [Char.ofNat (48 + v / 10), Char.ofNat (48 + v % 10)]

/-- A dynamically-typed argument: a string or anything else (used to
model the `isinstance(uuid_string, str)` contract check). -/
inductive PyInput where
  | pystr (s : PyStr)
  | nonstr

namespace UUIDGenerator

/-- Fields of the `is_valid=True` result of `validate_uuid` that the
claims concern (timestamp and component breakdown omitted). -/
structure ValidOut where
  uuid : PyStr
  version : PyStr
  variant : PyStr
  length : Nat
  hex : PyStr
  is_nil : Bool
  deriving DecidableEq

/-- Fields of the `is_valid=False` result of `validate_uuid`. -/
structure InvalidOut where
  error : PyStr
  input : PyStr
  suggestions : List PyStr
  deriving DecidableEq

/-- The two result shapes of `validate_uuid` (`is_valid` true/false). -/
inductive ValidateOut where
  | valid (o : ValidOut)
  | invalid (o : InvalidOut)
  deriving DecidableEq

/-- The fixed remediation suggestions of the failure result. -/
def failureSuggestions : List PyStr :=
  ["UUID should be in format: 8-4-4-4-12 hexadecimal digits".toList,
   "Example: 550e8400-e29b-41d4-a716-446655440000".toList,
   "Check for correct length (36 characters with dashes)".toList]

/-- Embedding of `UUIDGenerator.validate_uuid`. -/
def validate_uuid : PyInput → Except PyStr ValidateOut
  | .nonstr => .error "UUID must be a string".toList
  | .pystr s =>
    let t := pyStrip s
    match uuidFromStringE t with
    | .ok n =>
      .ok (.valid { uuid := uuidCanonical n,
                    version := pyUpper ('v' :: (match uuidVersion? n with
                      | some v => natToDec v
                      | none => "None".toList)),
                    variant := uuidVariant n,
                    length := (uuidCanonical n).length,
                    hex := natToHexPad 32 n,
                    is_nil := decide (n = 0) })
    | .error e => .ok (.invalid { error := e, input := t, suggestions := failureSuggestions })

end UUIDGenerator

example : UUIDGenerator.validate_uuid (.pystr "550e8400-e29b-41d4-a716-446655440000".toList)
    = .ok (.valid { uuid := "550e8400-e29b-41d4-a716-446655440000".toList,
                    version := "V4".toList, variant := "RFC 4122 variant".toList,
                    length := 36, hex := "550e8400e29b41d4a716446655440000".toList,
                    is_nil := false }) := by decide

/-- C9 (amended: the `input` field of the failure result is the
whitespace-trimmed string, not the original untrimmed input): every
string whose trimmed form fails UUID parsing yields an
`is_valid=false` result carrying the parse error, the trimmed input and
a non-empty suggestion list, while a non-string argument raises
`ValueError("UUID must be a string")` instead of returning a result. -/
theorem C9_validate_uuid_failure :
    UUIDGenerator.validate_uuid .nonstr = .error "UUID must be a string".toList
    ∧ ∀ s e, uuidFromStringE (pyStrip s) = .error e →
        UUIDGenerator.validate_uuid (.pystr s)
          = .ok (.invalid { error := e, input := pyStrip s,
                            suggestions := UUIDGenerator.failureSuggestions })
        ∧ UUIDGenerator.failureSuggestions ≠ [] := by
  refine ⟨rfl, ?_⟩
  intro s e he
  refine ⟨?_, by decide⟩
  simp only [UUIDGenerator.validate_uuid]
  rw [he]

/-- C9 counterexample: on the input `" not-a-uuid "` the failure result's
`input` field is the trimmed `"not-a-uuid"`, not the original untrimmed
string as claimed. -/
theorem C9_validate_uuid_trimmed_input_cex :
    UUIDGenerator.validate_uuid (.pystr " not-a-uuid ".toList)
      = .ok (.invalid { error := "badly formed hexadecimal UUID string".toList,
                        input := "not-a-uuid".toList,
                        suggestions := UUIDGenerator.failureSuggestions })
    ∧ "not-a-uuid".toList ≠ " not-a-uuid ".toList := by
  refine ⟨by decide, by decide⟩

/-- C9 witness: the failure theorem applied to a concrete malformed
string. -/
theorem C9_validate_uuid_failure_witness :
    UUIDGenerator.validate_uuid .nonstr = .error "UUID must be a string".toList
    ∧ (uuidFromStringE (pyStrip "zzz".toList)
        = .error "badly formed hexadecimal UUID string".toList
      ∧ UUIDGenerator.validate_uuid (.pystr "zzz".toList)
        = .ok (.invalid { error := "badly formed hexadecimal UUID string".toList,
                          input := pyStrip "zzz".toList,
                          suggestions := UUIDGenerator.failureSuggestions })
      ∧ UUIDGenerator.failureSuggestions ≠ []) :=
  ⟨C9_validate_uuid_failure.1,
    by decide,
    C9_validate_uuid_failure.2 "zzz".toList "badly formed hexadecimal UUID string".toList
      (by decide)⟩

theorem natToHexPad_length (w n : Nat) : (natToHexPad w n).length = w := by
  simp [natToHexPad]

theorem uuidCanonical_length (n : Nat) : (uuidCanonical n).length = 36 := by
  unfold uuidCanonical
  simp [natToHexPad_length]

/-- C10: every string accepted by the embedded `uuid.UUID` parser (after
trimming) — 32 bare hex digits, brace-wrapped, uppercase and
`urn:uuid:`-prefixed forms included — validates with `is_valid=true`,
and the returned `uuid` field is the canonical lowercase hyphenated
36-character rendering of the parsed 128-bit value, not the input as
given. -/
theorem C10_validate_uuid_canonicalizes (s : PyStr) (n : Nat)
    (h : uuidFromStringE (pyStrip s) = .ok n) :
    ∃ o, UUIDGenerator.validate_uuid (.pystr s) = .ok (.valid o)
      ∧ o.uuid = uuidCanonical n ∧ o.uuid.length = 36 := by
  simp only [UUIDGenerator.validate_uuid]
  rw [h]
  exact ⟨_, rfl, rfl, uuidCanonical_length n⟩

/-- C10 witness: three non-canonical accepted forms — bare uppercase hex,
brace-wrapped, and URN-prefixed — all validate and all return the same
canonical lowercase hyphenated string, different from each input. -/
theorem C10_validate_uuid_canonicalizes_witness :
    (uuidFromStringE (pyStrip "550E8400E29B41D4A716446655440000".toList)
        = .ok 0x550e8400e29b41d4a716446655440000
      ∧ ∃ o, UUIDGenerator.validate_uuid (.pystr "550E8400E29B41D4A716446655440000".toList)
          = .ok (.valid o)
        ∧ o.uuid = uuidCanonical 0x550e8400e29b41d4a716446655440000 ∧ o.uuid.length = 36)
    ∧ (∃ o, UUIDGenerator.validate_uuid
          (.pystr "\x7b550e8400-e29b-41d4-a716-446655440000\x7d".toList)
          = .ok (.valid o)
        ∧ o.uuid = uuidCanonical 0x550e8400e29b41d4a716446655440000 ∧ o.uuid.length = 36)
    ∧ (∃ o, UUIDGenerator.validate_uuid
          (.pystr "urn:uuid:550e8400-e29b-41d4-a716-446655440000".toList)
          = .ok (.valid o)
        ∧ o.uuid = uuidCanonical 0x550e8400e29b41d4a716446655440000 ∧ o.uuid.length = 36)
    ∧ uuidCanonical 0x550e8400e29b41d4a716446655440000
        = "550e8400-e29b-41d4-a716-446655440000".toList
    ∧ uuidCanonical 0x550e8400e29b41d4a716446655440000
        ≠ "550E8400E29B41D4A716446655440000".toList :=
  ⟨⟨by decide,
      C10_validate_uuid_canonicalizes "550E8400E29B41D4A716446655440000".toList _ (by decide)⟩,
    C10_validate_uuid_canonicalizes "\x7b550e8400-e29b-41d4-a716-446655440000\x7d".toList _
      (by decide),
    C10_validate_uuid_canonicalizes "urn:uuid:550e8400-e29b-41d4-a716-446655440000".toList _
      (by decide),
    by decide, by decide⟩
